import Mathlib

/-!
Shallow embedding of the OhaAsa fortune app's deterministic core:
the ranking normalizer (`normalizeRanking` / `normalizeFortuneJson`,
src/lib/fortuneEngine.js), the score normalizer (`normalizeOhaasaScores`,
src/lib/fortuneScores.js), the seeded RNG (`stringHash` / `mulberry32` /
`createSeededRandom`, src/lib/seedRandom.js), the zodiac helpers
(src/lib/zodiacWestern.js, src/lib/zodiacChinese.js) and the fortune
generator (`generateFortune`, src/lib/fortuneEngine.js).

JavaScript dynamic values are modelled by the inductive `JsVal`.
Numbers are modelled as mathematical integers (`Int`): every numeric
value occurring in this code path (ranks, scores, RNG outputs before
the final division) is integer-valued, and the floating-point steps of
the RNG are exact (all intermediate values stay below 2^53), so integer
arithmetic mod 2^32 reproduces the JS semantics bit for bit.
Non-integer doubles and NaN/Infinity inputs are outside the model; the
points where JS could in principle diverge (parseInt of 309+-digit
numerals rounding to Infinity, ToNumber of fractional numeric strings)
are noted at the relevant definitions.
-/

/-- JavaScript/JSON values.  `obj` carries fields in insertion order
(an association list); `undef` is JS `undefined`. -/
inductive JsVal where
  | null
  | undef
  | bool (b : Bool)
  | num (n : Int)
  | str (s : String)
  | arr (elems : List JsVal)
  | obj (fields : List (String × JsVal))
deriving Repr

/-- JS truthiness (`Boolean(v)`).  In our model all `num` values are
integers, so `0` is the only falsy number (JS also has `NaN`/`-0`). -/
def jsTruthy : JsVal → Bool
  | .null => false
  | .undef => false
  | .bool b => b
  | .num n => n != 0
  | .str s => s != ""
  | .arr _ => true
  | .obj _ => true

/-- `typeof v` (note `typeof null === "object"` in JS). -/
def jsTypeof : JsVal → String
  | .null => "object"
  | .undef => "undefined"
  | .bool _ => "boolean"
  | .num _ => "number"
  | .str _ => "string"
  | .arr _ => "object"
  | .obj _ => "object"

/-- Is the value `null` or `undefined` (the nullish values)? -/
def jsIsNullish : JsVal → Bool
  | .null => true
  | .undef => true
  | _ => false

/-- JS nullish coalescing `a ?? b`. -/
def jsNullish (a b : JsVal) : JsVal := if jsIsNullish a then b else a

/-- JS logical or `a || b` (value-returning). -/
def jsOr (a b : JsVal) : JsVal := if jsTruthy a then a else b

/-- Property read `v.k` for the non-throwing cases.  On an object, the
first binding for `k` (JS objects cannot have duplicate keys, so on the
image of real JS values this is exact); on primitives and arrays the
result is `undefined` for every key this code ever reads (none of the
accessed keys is an array index, `"length"`, or a method name).  JS
would throw a TypeError on `null`/`undefined` bases; every such access
site in the source is either optional-chained or guarded, which theorem
`normalize_total` (claim C9) makes precise via the `Except`-instrumented
copies below. -/
def jsGetF : JsVal → String → JsVal
  | .obj fields, k => ((fields.find? (fun p => p.1 == k)).map Prod.snd).getD .undef
  | _, _ => (.undef)

/-- Optional chaining `v?.k`. -/
def jsGetOpt (v : JsVal) (k : String) : JsVal :=
  if jsIsNullish v then .undef else jsGetF v k

/-- Property write `o.k = v` on an association list: update in place if
the key exists (JS keeps the original insertion position), else append. -/
def jsSetFields (fields : List (String × JsVal)) (k : String) (v : JsVal) :
    List (String × JsVal) :=
  if fields.any (fun p => p.1 == k) then
    fields.map (fun p => if p.1 == k then (k, v) else p)
  else
    fields ++ [(k, v)]

/-- Own enumerable properties, as used by object spread `{...v}`:
objects give their fields, arrays and strings their indexed elements,
primitives nothing. -/
def objFieldsOf : JsVal → List (String × JsVal)
  | .obj l => l
  | .arr l => l.enum.map (fun p => (toString p.1, p.2))
  | .str s => s.data.enum.map (fun p => (toString p.1, .str (String.singleton p.2)))
  | _ => []

/-- Strict equality `v === s` against a string literal (the only form of
`===` in this code path).  A non-string left operand is never `===` a
string. -/
def jsStrictEqStr (v : JsVal) (s : String) : Bool :=
  match v with
  | .str t => t == s
  | _ => false

/-- `Number.isInteger(v)`: in this model every `num` is an integer. -/
def jsIsInteger : JsVal → Bool
  | .num _ => true
  | _ => false

/-- `Number.isFinite(v)`: in this model every `num` is finite. -/
def jsIsFiniteNum : JsVal → Bool
  | .num _ => true
  | _ => false

/-- `Array.isArray(v)`. -/
def jsIsArray : JsVal → Bool
  | .arr _ => true
  | _ => false

mutual

/-- JS `ToString` coercion (as applied by `parseInt`, template strings
and `Array.prototype.join`).  `Array.prototype.toString` joins the
element strings with `","`, rendering `null`/`undefined` elements as
the empty string. -/
def jsToString : JsVal → String
  | .null => "null"
  | .undef => "undefined"
  | .bool b => if b then "true" else "false"
  | .num n => toString n
  | .str s => s
  | .obj _ => "[object Object]"
  | .arr l => String.intercalate "," (jsToStringList l)

/-- Element strings for `Array.prototype.join`. -/
def jsToStringList : List JsVal → List String
  | [] => []
  | .null :: rest => "" :: jsToStringList rest
  | .undef :: rest => "" :: jsToStringList rest
  | v :: rest => jsToString v :: jsToStringList rest

end

/-- `parseInt(s, 10)` on a string: skip leading whitespace, read an
optional sign and then the longest prefix of ASCII decimal digits;
`none` models the `NaN` result.  The parse is exact (mathematical)
whereas JS rounds to double precision; this only matters for numerals
of 16+ digits, whose magnitude JS still preserves, so every `<= 100` /
`in [1,12]` decision taken on the result agrees with JS (JS additionally
overflows 309+-digit numerals to `Infinity`, outside this model). -/
def jsParseIntStr (s : String) : Option Int :=
  let l := s.data.dropWhile (fun c => c.isWhitespace)
  let signed : Bool × List Char :=
    match l with
    | '-' :: rest => (true, rest)
    | '+' :: rest => (false, rest)
    | _ => (false, l)
  let digits := signed.2.takeWhile (fun c => c.isDigit)
  if digits.isEmpty then none
  else
    let n : Nat := digits.foldl (fun acc c => acc * 10 + (c.toNat - 48)) 0
    some (if signed.1 then -(n : Int) else (n : Int))

/-- `Number.parseInt(v, 10)` on an arbitrary value: coerce to a string
first, then parse. -/
def jsParseInt (v : JsVal) : Option Int :=
  jsParseIntStr (jsToString v)

/-- `ToNumber` on a string (used by `Number(...)` and the relational
operators): whitespace-only is `0`; otherwise the whole string must be
a signed decimal integer numeral (fractional, hex and exponent forms
are outside this model and yield `none` = NaN). -/
def jsToNumberStr (s : String) : Option Int :=
  let l := (s.data.dropWhile (fun c => c.isWhitespace)).reverse
  let l := (l.dropWhile (fun c => c.isWhitespace)).reverse
  if l.isEmpty then some 0
  else
    let signed : Bool × List Char :=
      match l with
      | '-' :: rest => (true, rest)
      | '+' :: rest => (false, rest)
      | _ => (false, l)
    if signed.2.isEmpty || signed.2.any (fun c => !c.isDigit) then none
    else
      let n : Nat := signed.2.foldl (fun acc c => acc * 10 + (c.toNat - 48)) 0
      some (if signed.1 then -(n : Int) else (n : Int))

/-- `ToNumber(v)`; `none` models NaN. -/
def jsToNumber : JsVal → Option Int
  | .null => some 0
  | .undef => none
  | .bool b => some (if b then 1 else 0)
  | .num n => some n
  | .str s => jsToNumberStr s
  | .arr l => jsToNumberStr (jsToString (.arr l))
  | .obj _ => none

/-- JS `String.prototype.trim()`: drop whitespace from both ends.
(Char-list implementation, kernel-reducible.) -/
def jsTrim (s : String) : String :=
  String.mk (((s.data.dropWhile (fun c => c.isWhitespace)).reverse.dropWhile
    (fun c => c.isWhitespace)).reverse)

/-- JS `String.prototype.includes(c)` for a single-character needle. -/
def jsIncludesChar (s : String) (c : Char) : Bool :=
  s.data.any (fun d => d = c)

/-- JS `String.prototype.split(sep)` for a single-character separator,
on the character list (`"".split` gives `[""]`, a trailing separator a
trailing `""`). -/
def splitOnChar (sep : Char) : List Char → List (List Char)
  | [] => [[]]
  | c :: rest =>
      let r := splitOnChar sep rest
      if c = sep then [] :: r
      else (c :: r.headI) :: r.tail

/-- `birthdate.split('-')` as strings. -/
def jsSplitOnDash (s : String) : List String :=
  (splitOnChar '-' s.data).map String.mk

/-- JS `String.prototype.replace('-', '')`: remove the first dash. -/
def removeFirstDash : List Char → List Char
  | [] => []
  | c :: rest => if c = '-' then rest else c :: removeFirstDash rest

/-- JS relational `v >= n` against an integer constant (NaN compares
false). -/
def jsGEInt (v : JsVal) (n : Int) : Bool :=
  match jsToNumber v with
  | some m => n ≤ m
  | none => false

/-- JS relational `v <= n` against an integer constant. -/
def jsLEInt (v : JsVal) (n : Int) : Bool :=
  match jsToNumber v with
  | some m => m ≤ n
  | none => false

/-! ### Seeded RNG (src/lib/seedRandom.js)

All state is tracked as a natural number below `2^32`.  The JS code
mixes `Math.imul` (32-bit multiply), `^`, `>>>`, `|` (all of which
coerce through 32-bit integers) with one plain float addition
(`seed += 0x6d2b79f5` and `t + Math.imul(...)`); each float addition is
exact (operands below `2^53`), and every value is subsequently coerced
through 32-bit ops, so computing everything mod `2^32` is bit-exact. -/

/-- `2^32`, the modulus of all 32-bit coercions. -/
def u32size : Nat := 4294967296

/-- One call of the `mulberry32` closure: returns the 32-bit output
`(t ^ (t >>> 14)) >>> 0` (the JS code divides it by `2^32` to get a
float in `[0,1)`; we keep the exact numerator) and the updated state. -/
def mulberryNext (state : Nat) : Nat × Nat :=
  let s := (state + 0x6d2b79f5) % u32size
  let t1 := ((s ^^^ (s >>> 15)) * (s ||| 1)) % u32size
  let t2 := t1 ^^^ ((t1 + ((t1 ^^^ (t1 >>> 7)) * (t1 ||| 61)) % u32size) % u32size)
  (t2 ^^^ (t2 >>> 14), s)

/-- UTF-16 code units of a character, as read by `charCodeAt`. -/
def utf16CodeUnits (c : Char) : List Nat :=
  let v := c.toNat
  if v < 0x10000 then [v]
  else [0xd800 + (v - 0x10000) / 0x400, 0xdc00 + (v - 0x10000) % 0x400]

/-- `stringHash`: FNV-1a-style fold over the UTF-16 code units. -/
def stringHash (s : String) : Nat :=
  ((s.data.map utf16CodeUnits).flatten).foldl
    (fun h c => ((h ^^^ c) * 16777619) % u32size) 2166136261

/-- `rng.nextInt(min, max)`: `Math.floor(u * (max - min + 1)) + min`
with `u = out / 2^32`; exact because `out * (max-min+1) < 2^53`.
(The source only ever calls this with `min <= max`.) -/
def rngNextInt (min max : Int) (st : Nat) : Int × Nat :=
  let p := mulberryNext st
  (min + (Int.ofNat (p.1 * (max - min + 1).toNat / u32size)), p.2)

/-- `rng.pick(list)`: `list[Math.floor(u * list.length)]`.  The index is
always in range for a nonempty list, so the default is never used. -/
def rngPick {α : Type} (l : List α) (d : α) (st : Nat) : α × Nat :=
  let p := mulberryNext st
  (l.getD (p.1 * l.length / u32size) d, p.2)

/-- `createSeededRandom(seedString)`: the initial closure state. -/
def createSeededRandom (seedString : String) : Nat :=
  stringHash seedString

/-! ### Score normalization (src/lib/fortuneScores.js) -/

/-- `clampScore(value, fallback)`: `parseInt` then clamp to `[0,100]`,
falling back on NaN. -/
def clampScore (value : JsVal) (fallback : JsVal) : JsVal :=
  match jsParseInt value with
  | none => fallback
  | some n => .num (max 0 (min 100 n))

/-- `scoreToPercent(score)`. -/
def scoreToPercent (score : JsVal) : JsVal := clampScore score (.num 0)

/-- Rounded mean `Math.round(sum / len)` for a nonnegative integer sum:
round-half-up, computed exactly as `(2*sum + len) / (2*len)`.  The JS
float division is exact for `len` 1, 2 and 4, and for `len = 3` the
quotient is never within `1/6` of a half-integer, so the JS result
agrees with the exact rational rounding. -/
def jsRoundDiv (sum : Int) (len : Nat) : Int :=
  (2 * sum + len) / (2 * len)

/-- The tail of the `total` resolution in `normalizeOhaasaScores`:
starting from `normalizedTotal ?? next.total`, fall back to the rounded
mean of the finite category fields (`clampScore(avg, 50)`), then to
`50`.  (`fields` are the four category values already produced by the
`SCORE_KEYS` loop; `Number.isFinite` keeps exactly the `num`s.) -/
def totalResolved (t1 : JsVal) (fields : List JsVal) : JsVal :=
  let t2 :=
    if jsIsNullish t1 then
      let cats := fields.filterMap
        (fun v => match v with | .num n => some n | _ => none)
      if cats.length > 0 then
        clampScore (.num (jsRoundDiv (cats.foldl (fun a b => a + b) 0) cats.length)) (.num 50)
      else t1
    else t1
  if jsIsNullish t2 then .num 50 else t2

/-- `normalizeOhaasaScores(scores)`: `null` for non-objects, otherwise
an object with keys `total, love, study, money, health` (in that
insertion order — `total` is assigned first by the `SCORE_KEYS` loop and
later updated in place).  `total` falls back to the rounded mean of the
present categories, then to `50`. -/
def normalizeOhaasaScores (scores : JsVal) : JsVal :=
  if !(jsTruthy scores) || jsTypeof scores != "object" then .null
  else
    let normalizedTotal :=
      clampScore (jsNullish (jsGetF scores "total") (jsGetF scores "overall")) .null
    let t0 := clampScore (jsGetF scores "total") .null
    let lv := clampScore (jsGetF scores "love") .null
    let st := clampScore (jsGetF scores "study") .null
    let mo := clampScore (jsGetF scores "money") .null
    let he := clampScore (jsGetF scores "health") .null
    .obj [("total", totalResolved (jsNullish normalizedTotal t0) [lv, st, mo, he]),
      ("love", lv), ("study", st), ("money", mo), ("health", he)]

/-! ### Ranking normalizer (src/lib/fortuneEngine.js) -/

/-- `parseRank(value)`: integers pass through; strings contribute the
base-10 value of all their ASCII digit characters concatenated
(`value.match(/\d+/g)?.join('')`); anything else is `none`. -/
def parseRank : JsVal → Option Int
  | .num n => some n
  | .str s =>
      let digits := s.data.filter (fun c => c.isDigit)
      if digits.isEmpty then none
      else some ((digits.foldl (fun acc c => acc * 10 + (c.toNat - 48)) 0 : Nat) : Int)
  | _ => none

/-- `normalizeStatusTag(value)`. -/
def normalizeStatusTag (value : JsVal) : String :=
  let text := match value with | .str s => jsTrim s | _ => ""
  if text == "상승" || text == "하락" || text == "안정" then text
  else if text == "" then "안정"
  else if jsIncludesChar text '상' then "상승"
  else if jsIncludesChar text '하' then "하락"
  else "안정"

/-- `pickTone(score)`. -/
def pickTone (score : Int) : String :=
  if score < 40 then "low" else if score < 70 then "mid" else "high"

/-- `getOverallRangeByRank(rank)`: rank is an arbitrary value here; the
JS relational operators coerce it to a number. -/
def getOverallRangeByRank (rank : JsVal) : Option (Int × Int) :=
  if jsGEInt rank 1 && jsLEInt rank 3 then some (85, 100)
  else if jsGEInt rank 4 && jsLEInt rank 6 then some (65, 85)
  else if jsGEInt rank 7 && jsLEInt rank 9 then some (45, 65)
  else if jsGEInt rank 10 && jsLEInt rank 12 then some (20, 45)
  else none

/-- `SIGN_KO_BY_KEY`. -/
def SIGN_KO_BY_KEY : List (String × String) :=
  [("jp_おひつじ座", "양자리"), ("jp_おうし座", "황소자리"),
   ("jp_ふたご座", "쌍둥이자리"), ("jp_かに座", "게자리"),
   ("jp_しし座", "사자자리"), ("jp_おとめ座", "처녀자리"),
   ("jp_てんびん座", "천칭자리"), ("jp_さそり座", "전갈자리"),
   ("jp_いて座", "사수자리"), ("jp_やぎ座", "염소자리"),
   ("jp_みずがめ座", "물병자리"), ("jp_うお座", "물고기자리")]

/-- The spread `{...(ranking || {})}` building `next`. -/
def rawFieldsOf (ranking : JsVal) : List (String × JsVal) :=
  objFieldsOf (jsOr ranking (.obj []))

/-- The `next.rank` value read before repair. -/
def rawRankOf (ranking : JsVal) : JsVal :=
  jsGetF (.obj (rawFieldsOf ranking)) "rank"

/-- The repaired rank: the parsed rank when it is an integer in
`[1,12]`, else `null`. -/
def rankValOf (ranking : JsVal) : JsVal :=
  match parseRank (rawRankOf ranking) with
  | some n => if 1 ≤ n ∧ n ≤ 12 then .num n else .null
  | none => .null

/-- The repaired `sign_key`: the trimmed string when non-empty, else
`null` (read off `next` after the rank assignment). -/
def signKeyValOf (ranking : JsVal) : JsVal :=
  match jsGetF (.obj (jsSetFields (rawFieldsOf ranking) "rank" (rankValOf ranking)))
      "sign_key" with
  | .str s => if jsTrim s != "" then .str (jsTrim s) else .null
  | _ => .null

/-- The `sign_ko` derivation step: when `sign_ko` is falsy and a
`sign_key` survived, fill it from the fixed lookup (or `''`). -/
def signKoStep (f2 : List (String × JsVal)) (signKeyVal : JsVal) :
    List (String × JsVal) :=
  if !(jsTruthy (jsGetF (.obj f2) "sign_ko")) && jsTruthy signKeyVal then
    let ko := match signKeyVal with
      | .str s => ((SIGN_KO_BY_KEY.find? (fun p => p.1 == s)).map Prod.snd).getD ""
      | _ => ""
    jsSetFields f2 "sign_ko" (.str ko)
  else f2

/-- The pure prefix of `normalizeRanking`: spread, rank and sign_key
repair (with their warnings), and the sign_ko fill. -/
def normalizeRankingPre (ranking : JsVal) (index : Int) :
    List (String × JsVal) × List String :=
  let f0 := rawFieldsOf ranking
  let rankVal : JsVal := rankValOf ranking
  let f1 := jsSetFields f0 "rank" rankVal
  let w1 : List String :=
    if jsIsNullish rankVal then ["invalid rank at index " ++ toString index] else []
  let signKeyVal : JsVal := signKeyValOf ranking
  let f2 := jsSetFields f1 "sign_key" signKeyVal
  let w2 : List String :=
    if jsIsNullish signKeyVal then ["missing sign_key at index " ++ toString index] else []
  (signKoStep f2 signKeyVal, w1 ++ w2)

/-- The `status_tag` normalization step
(`next.status_tag ?? next.trend ?? next.toneLabel`). -/
def statusStep (f4 : List (String × JsVal)) : List (String × JsVal) :=
  jsSetFields f4 "status_tag" (.str (normalizeStatusTag
    (jsNullish (jsGetF (.obj f4) "status_tag")
      (jsNullish (jsGetF (.obj f4) "trend") (jsGetF (.obj f4) "toneLabel")))))

/-- The `ai` repair: non-truthy or non-object becomes `null`; otherwise
`cards` is coerced to array-or-null and `summary` to object-or-null. -/
def aiValOf (aiRaw : JsVal) : JsVal :=
  if !(jsTruthy aiRaw) || jsTypeof aiRaw != "object" then .null
  else
    let safeCards := if jsIsArray (jsGetF aiRaw "cards") then jsGetF aiRaw "cards" else .null
    let s := jsGetF aiRaw "summary"
    let safeSummary := if jsTruthy s && jsTypeof s == "object" then s else .null
    .obj (jsSetFields (jsSetFields (objFieldsOf aiRaw) "cards" safeCards)
      "summary" safeSummary)

/-- `normalizeRanking(ranking, index)`: returns the repaired entry
(`next`, an object that keeps all original spread fields) and the
warnings pushed for this entry, in push order. -/
def normalizeRanking (ranking : JsVal) (index : Int := 0) : JsVal × List String :=
  let pre := normalizeRankingPre ranking index
  let f4 := jsSetFields pre.1 "scores"
    (normalizeOhaasaScores (jsGetF (.obj pre.1) "scores"))
  let f5 := statusStep f4
  (.obj (jsSetFields f5 "ai" (aiValOf (jsGetF (.obj f5) "ai"))), pre.2)

/-! ### Payload normalizer `normalizeFortuneJson` (src/lib/fortuneEngine.js)

The source reads the ambient clock via `getTodayKstString()` for the
fallback date; the embedding takes that reading as the explicit
parameter `todayKst`. -/

/-- `DATE_RE.test(s)` for `^\d{4}-\d{2}-\d{2}$`. -/
def isDateRe (s : String) : Bool :=
  match s.data with
  | [a, b, c, d, e, f, g, h, i, j] =>
      a.isDigit && b.isDigit && c.isDigit && d.isDigit && e == '-' &&
      f.isDigit && g.isDigit && h == '-' && i.isDigit && j.isDigit
  | _ => false

/-- The `rank` of a normalized entry, as an integer.  Only applied after
the `Number.isInteger(item.rank)` filter, where the field is a number. -/
def rankOf (e : JsVal) : Int :=
  match jsGetF e "rank" with
  | .num n => n
  | _ => 0

/-- The filter `Number.isInteger(item.rank) && item.rank >= 1 && item.rank <= 12`. -/
def rankInRange (e : JsVal) : Bool :=
  jsIsInteger (jsGetF e "rank") && jsGEInt (jsGetF e "rank") 1 && jsLEInt (jsGetF e "rank") 12

/-- Stable insertion for ascending sort by rank: an element is placed
before the first existing element of rank `>=` its own, so elements of
equal rank keep their relative order — the semantics ECMAScript
guarantees for `Array.prototype.sort` with comparator `a.rank - b.rank`. -/
def insertByRank (x : JsVal) : List JsVal → List JsVal
  | [] => [x]
  | y :: ys => if rankOf y < rankOf x then y :: insertByRank x ys else x :: y :: ys

/-- Stable ascending sort by rank (insertion sort). -/
def sortByRank : List JsVal → List JsVal
  | [] => []
  | x :: xs => insertByRank x (sortByRank xs)

/-- The dedup walk: keep an entry if its rank was not seen, else drop it
and record a `"duplicate rank {r}"` warning.  Returns (kept entries,
warnings in push order). -/
def dedupByRank : List JsVal → List Int → List JsVal × List String
  | [], _ => ([], [])
  | e :: rest, seen =>
      if rankOf e ∈ seen then
        let p := dedupByRank rest seen
        (p.1, ("duplicate rank " ++ toString (rankOf e)) :: p.2)
      else
        let p := dedupByRank rest (rankOf e :: seen)
        (e :: p.1, p.2)

/-- The record returned by `normalizeFortuneJson`. -/
structure RankingSetResult where
  source : JsVal
  date_kst : String
  updated_at_kst : JsVal
  status : JsVal
  error_message : JsVal
  rankings : List JsVal
  warnings : List String
deriving Repr

/-- `normalizeFortuneJson(data)` with the clock reading
`getTodayKstString()` passed as `todayKst`. -/
def normalizeFortuneJson (data : JsVal) (todayKst : String) : RankingSetResult :=
  let fallbackDate := todayKst
  let dateCandidate := match jsGetOpt data "date_kst" with | .str s => jsTrim s | _ => ""
  let date_kst := if isDateRe dateCandidate then dateCandidate else fallbackDate
  let dateW : List String := if date_kst != dateCandidate then ["invalid date_kst"] else []
  let inputRankings := match jsGetOpt data "rankings" with | .arr l => l | _ => []
  let normalized := inputRankings.enum.map (fun p => normalizeRanking p.2 (Int.ofNat p.1))
  let entryWs := (normalized.map Prod.snd).flatten
  let filtered := (normalized.map Prod.fst).filter rankInRange
  let dd := dedupByRank (sortByRank filtered) []
  let warnings := dateW ++ entryWs ++ dd.2
  let declared := jsGetOpt data "status"
  let nextStatus : JsVal :=
    if warnings.length > 0 && jsStrictEqStr declared "ok" then .str "partial"
    else jsOr declared (.str "ok")
  { source := jsOr (jsGetOpt data "source") (.str "asahi_ohaasa")
    date_kst := date_kst
    updated_at_kst := jsOr (jsGetOpt data "updated_at_kst") .null
    status := nextStatus
    error_message := jsOr (jsGetOpt data "error_message") (.str "")
    rankings := dd.1
    warnings := warnings }

/-! ### Zodiac derivation (src/lib/zodiacWestern.js, src/lib/zodiacChinese.js) -/

/-- The 12 western ranges `(name, start, end)` in source order. -/
def zodiacRanges : List (String × String × String) :=
  [("염소자리", "12-22", "01-19"), ("물병자리", "01-20", "02-18"),
   ("물고기자리", "02-19", "03-20"), ("양자리", "03-21", "04-19"),
   ("황소자리", "04-20", "05-20"), ("쌍둥이자리", "05-21", "06-21"),
   ("게자리", "06-22", "07-22"), ("사자자리", "07-23", "08-22"),
   ("처녀자리", "08-23", "09-23"), ("천칭자리", "09-24", "10-22"),
   ("전갈자리", "10-23", "11-22"), ("사수자리", "11-23", "12-21")]

/-- `toDayValue(mmdd)`: drop the first dash (JS
`String.prototype.replace('-','')` replaces only the first occurrence),
then `parseInt` base 10 (`none` = NaN). -/
def toDayValue (mmdd : String) : Option Int :=
  jsParseIntStr (String.mk (removeFirstDash mmdd.data))

/-- The range check: wraparound ranges (`start > end`) use
`value >= start || value <= end`, plain ranges use the conjunction.
A NaN value (`none`) fails every comparison. -/
def zodiacRangeMatch (startS endS : String) (value : Option Int) : Bool :=
  match toDayValue startS, toDayValue endS, value with
  | some sv, some ev, some v =>
      if sv > ev then decide (sv ≤ v) || decide (v ≤ ev)
      else decide (sv ≤ v) && decide (v ≤ ev)
  | _, _, _ => false

/-- `getWesternZodiac(birthdate)`: empty input gives `''`; otherwise the
name of the first matching range, else `''`.  A missing month/day part
of the split renders as the string `"undefined"` in the template
literal, parses to NaN, and matches no range. -/
def getWesternZodiac (birthdate : String) : String :=
  if birthdate == "" then ""
  else
    let parts := jsSplitOnDash birthdate
    let partAt := fun (i : Nat) => (parts.get? i).getD "undefined"
    let value := toDayValue (partAt 1 ++ "-" ++ partAt 2)
    match zodiacRanges.find? (fun r => zodiacRangeMatch r.2.1 r.2.2 value) with
    | some r => r.1
    | none => ""

/-- The fixed 12-animal cycle. -/
def chineseAnimals : List String :=
  ["쥐", "소", "호랑이", "토끼", "용", "뱀", "말", "양", "원숭이", "닭", "개", "돼지"]

/-- JS `%` (truncated remainder, sign of the dividend) for a positive
modulus. -/
def jsTruncMod (a : Int) (b : Nat) : Int :=
  if 0 ≤ a then a % (b : Int) else -((-a) % (b : Int))

/-- `getChineseZodiac(birthdate)`: `Number(year part) - 4`, JS `% 12`,
indexed into the cycle.  A NaN or negative index reads `animals[i]` as
`undefined`. -/
def getChineseZodiac (birthdate : String) : JsVal :=
  if birthdate == "" then .str ""
  else
    match jsToNumberStr (((jsSplitOnDash birthdate).get? 0).getD "") with
    | none => .undef
    | some y =>
        let idx := jsTruncMod (y - 4) 12
        if 0 ≤ idx ∧ idx < 12 then .str (chineseAnimals.getD idx.toNat "")
        else (.undef)

/-! ### Fortune generator (src/lib/fortuneEngine.js) -/

/-- `CATEGORY_LABELS` (only the five category keys are ever looked up). -/
def CATEGORY_LABELS (key : String) : String :=
  if key == "total" then "총운"
  else if key == "love" then "연애운"
  else if key == "study" then "학업운"
  else if key == "money" then "금전운"
  else "건강운"

/-- One entry of the static three-tone fallback text table. -/
structure FallbackTemplate where
  title : String
  body : String
  tip : String
  warning : String
deriving Repr

/-- `FALLBACK_TEXT[tone]` (only the tones produced by `pickTone` are
ever looked up). -/
def FALLBACK_TEXT (tone : String) : FallbackTemplate :=
  if tone == "low" then
    { title := "리듬을 천천히 맞춰보세요"
      body := "할 일을 한 번에 밀어붙이기보다 우선순위를 정하면 훨씬 수월합니다. 작은 정리가 흐름을 안정시켜 줍니다."
      tip := "가벼운 체크리스트로 부담을 줄여보세요."
      warning := "급한 판단은 한 번 더 확인하는 편이 좋습니다." }
  else if tone == "mid" then
    { title := "무난한 흐름을 유지할 수 있어요"
      body := "평소 루틴을 지키면 안정적인 결과를 기대할 수 있습니다. 주변과의 협업에서도 균형이 잘 맞습니다."
      tip := "계획한 일정의 완성도를 먼저 챙겨보세요."
      warning := "사소한 피로 신호를 넘기지 마세요." }
  else
    { title := "기회가 눈에 잘 들어오는 날입니다"
      body := "좋은 타이밍이 이어질 가능성이 높습니다. 다만 속도보다 방향을 맞추면 성과가 더 단단해집니다."
      tip := "작게라도 먼저 실행해 감을 잡아보세요."
      warning := "과도한 확신보다는 점검 습관을 유지하세요." }

/-- `FALLBACK_LUCKY_COLORS` as `(name, value)` pairs. -/
def FALLBACK_LUCKY_COLORS : List (String × String) :=
  [("네온 바이올렛", "#8B7BFF"), ("코발트 블루", "#5AA7FF"),
   ("코스믹 핑크", "#FF7BD8"), ("에메랄드 그린", "#6DE5AE"),
   ("샌드 골드", "#D8B56E"), ("라피스 네이비", "#1F2B6F")]

/-- `FALLBACK_ITEMS`. -/
def FALLBACK_ITEMS : List String :=
  ["작은 메모장", "텀블러", "정리 파우치", "가벼운 카드 지갑"]

/-- `FALLBACK_KEYWORDS`. -/
def FALLBACK_KEYWORDS : List String := ["집중", "균형", "회복", "정리"]

/-- A `FortuneCard`.  `score` is always an integer; the narrative fields
come either from AI data (arbitrary values) or from the fallback table
(strings), so they are modelled as `JsVal`. -/
structure FortuneCard where
  key : String
  name : String
  score : Int
  tone : String
  toneLabel : JsVal
  headline : JsVal
  detail : JsVal
  tip : JsVal
  caution : JsVal
deriving Repr

/-- `createFallbackCard(key, score)`. -/
def createFallbackCard (key : String) (score : Int) : FortuneCard :=
  let tone := pickTone score
  let template := FALLBACK_TEXT tone
  { key := key
    name := CATEGORY_LABELS key
    score := score
    tone := tone
    toneLabel := .str (if tone == "low" then "주의" else if tone == "mid" then "안정" else "상승")
    headline := .str template.title
    detail := .str template.body
    tip := .str template.tip
    caution := .str template.warning }

instance : Inhabited FortuneCard := ⟨createFallbackCard "total" 50⟩

/-- `AI_CATEGORY_BY_KEY` (the identity on the five category keys). -/
def AI_CATEGORY_BY_KEY : List (String × String) :=
  [("total", "total"), ("love", "love"), ("study", "study"),
   ("money", "money"), ("health", "health")]

/-- `createCardFromAi(key, score, aiCards, statusTag)`: `none` models the
`null` return (no matching AI card). -/
def createCardFromAi (key : String) (score : Int) (aiCards : JsVal) (statusTag : JsVal) :
    Option FortuneCard :=
  let expectedCategory := ((AI_CATEGORY_BY_KEY.find? (fun p => p.1 == key)).map Prod.snd).getD ""
  let card : JsVal :=
    match aiCards with
    | .arr l =>
        (l.find? (fun item => jsStrictEqStr (jsGetOpt item "category") expectedCategory)).getD .undef
    | _ => .null
  if !(jsTruthy card) then none
  else some
    { key := key
      name := CATEGORY_LABELS key
      score := score
      tone := pickTone score
      toneLabel := jsOr statusTag (.str "안정")
      headline := jsOr (jsGetF card "vibe") (jsOr (jsGetF card "headline") (jsGetF card "title"))
      detail := jsGetF card "detail"
      tip := jsGetF card "tip"
      caution := jsGetF card "warning" }

/-- The lucky bundle.  All five fields may be raw AI values, so they are
`JsVal`s. -/
structure LuckyBundle where
  color : JsVal
  colorName : JsVal
  number : JsVal
  item : JsVal
  keyword : JsVal
deriving Repr

/-- The `FortuneView` returned by `generateFortune`. -/
structure FortuneView where
  date : String
  birthdate : String
  westernZodiac : String
  chineseZodiac : JsVal
  summary : JsVal
  summaryTip : JsVal
  summaryWarning : JsVal
  fortunes : List FortuneCard
  lucky : LuckyBundle
deriving Repr

/-- The `options` argument of `generateFortune`, with its destructuring
defaults. -/
structure FortuneOptions where
  rank : JsVal := .null
  scores : JsVal := .null
  ranking : JsVal := .null

/-- The five category keys, in generation order. -/
def FORTUNE_KEYS : List String := ["total", "love", "study", "money", "health"]

/-- One evaluation of the inner `scoreFor(key)` closure, threading the
RNG state (the RNG is consulted only when no normalized score is
available for the key). -/
def scoreForStep (normalizedScores : JsVal) (totalRange : Option (Int × Int))
    (key : String) (st : Nat) : Int × Nat :=
  if jsIsFiniteNum (jsGetOpt normalizedScores key) then
    (match jsGetOpt normalizedScores key with | .num n => n | _ => 0, st)
  else
    match key == "total", totalRange with
    | true, some r => rngNextInt r.1 r.2 st
    | _, _ => rngNextInt 25 98 st

/-- The `.map` over the five keys building the cards, threading the RNG
state left to right (JS evaluates `map` callbacks in order). -/
def buildCards (normalizedScores : JsVal) (totalRange : Option (Int × Int))
    (aiCards : JsVal) (statusTag : JsVal) : List String → Nat → List FortuneCard × Nat
  | [], st => ([], st)
  | key :: rest, st =>
      let p := scoreForStep normalizedScores totalRange key st
      let card := (createCardFromAi key p.1 aiCards statusTag).getD (createFallbackCard key p.1)
      let q := buildCards normalizedScores totalRange aiCards statusTag rest p.2
      (card :: q.1, q.2)

/-- `const normalizedRanking = ranking ? normalizeRanking(ranking).ranking : null`. -/
def normalizedRankingOf (options : FortuneOptions) : JsVal :=
  if jsTruthy options.ranking then (normalizeRanking options.ranking 0).1 else .null

/-- `const normalizedScores = normalizeOhaasaScores(scores || normalizedRanking?.scores)`. -/
def normalizedScoresOf (options : FortuneOptions) : JsVal :=
  normalizeOhaasaScores (jsOr options.scores (jsGetOpt (normalizedRankingOf options) "scores"))

/-- `const totalRange = normalizedScores?.total == null ? getOverallRangeByRank(rank) : null`. -/
def totalRangeOf (options : FortuneOptions) : Option (Int × Int) :=
  if jsIsNullish (jsGetOpt (normalizedScoresOf options) "total") then
    getOverallRangeByRank options.rank
  else none

/-- `const aiLucky = normalizedRanking?.ai?.lucky_points`. -/
def aiLuckyOf (options : FortuneOptions) : JsVal :=
  jsGetOpt (jsGetOpt (normalizedRankingOf options) "ai") "lucky_points"

/-- The five-card build together with the RNG state it leaves behind
(the five conditional score draws). -/
def cardsBuildOf (birthdate todayKst : String) (options : FortuneOptions) :
    List FortuneCard × Nat :=
  buildCards (normalizedScoresOf options) (totalRangeOf options)
    (jsOr (jsGetOpt (jsGetOpt (normalizedRankingOf options) "ai") "cards") .null)
    (jsGetOpt (normalizedRankingOf options) "status_tag") FORTUNE_KEYS
    (createSeededRandom (todayKst ++ "|" ++ birthdate ++ "|ohaasa-v2"))

/-- The lucky bundle: the unconditional fallback-color pick, then the
conditional number / item / keyword draws, each field preferring the
AI-provided `lucky_points` value. -/
def luckyOf (birthdate todayKst : String) (options : FortuneOptions) : LuckyBundle :=
  let aiLucky := aiLuckyOf options
  let cp := rngPick FALLBACK_LUCKY_COLORS ("", "") (cardsBuildOf birthdate todayKst options).2
  let fallbackColor := cp.1
  let numberDraw : JsVal × Nat :=
    if jsIsInteger (jsGetOpt aiLucky "number") then (jsGetOpt aiLucky "number", cp.2)
    else
      let p := rngNextInt 1 9 cp.2
      (.num p.1, p.2)
  let itemDraw : JsVal × Nat :=
    if jsTruthy (jsGetOpt aiLucky "item") then (jsGetOpt aiLucky "item", numberDraw.2)
    else
      let p := rngPick FALLBACK_ITEMS "" numberDraw.2
      (.str p.1, p.2)
  let keywordDraw : JsVal × Nat :=
    if jsTruthy (jsGetOpt aiLucky "keyword") then (jsGetOpt aiLucky "keyword", itemDraw.2)
    else
      let p := rngPick FALLBACK_KEYWORDS "" itemDraw.2
      (.str p.1, p.2)
  { color := jsOr (jsGetOpt aiLucky "color_hex") (.str fallbackColor.2)
    colorName := jsOr (jsGetOpt aiLucky "color_name") (.str fallbackColor.1)
    number := numberDraw.1
    item := itemDraw.1
    keyword := keywordDraw.1 }

/-- `generateFortune(birthdate, todayKst, options)` (the `ohaasa-v2`
engine).  RNG draws happen in source order: five (conditional) score
draws, the unconditional fallback-color pick, then the conditional
number / item / keyword draws. -/
def generateFortune (birthdate todayKst : String) (options : FortuneOptions := {}) :
    FortuneView :=
  let normalizedRanking : JsVal := normalizedRankingOf options
  let built := cardsBuildOf birthdate todayKst options
  let lucky : LuckyBundle := luckyOf birthdate todayKst options
  let aiSummary := jsGetOpt (jsGetOpt normalizedRanking "ai") "summary"
  let summaryText : JsVal :=
    if jsTruthy aiSummary then
      .str (String.intercalate " · "
        (jsToStringList ([jsGetF aiSummary "one_liner", jsGetF aiSummary "focus",
          jsGetF aiSummary "title", jsGetF aiSummary "body"].filter (fun v => jsTruthy v))))
    else
      jsOr (jsGetOpt normalizedRanking "message_ko")
        (jsOr (jsGetOpt normalizedRanking "message_jp") (.str "오늘의 흐름을 차분히 살펴보세요."))
  { date := todayKst
    birthdate := birthdate
    westernZodiac := getWesternZodiac birthdate
    chineseZodiac := getChineseZodiac birthdate
    summary := summaryText
    summaryTip := .null
    summaryWarning := .null
    fortunes := built.1
    lucky := lucky }

/-! ### Exception-instrumented normalizers (claim C9)

JS property access throws a TypeError on a `null`/`undefined` base and
is total otherwise.  `jsGetE` models the strict (non-optional-chained)
access; the `...E` copies below perform every strict access whose base
comes from the untrusted input through it (the six `scores.*` reads of
`normalizeOhaasaScores` behind the object guard, and the
`next.ai.cards` / `next.ai.summary` reads behind the truthy-object
guard), and are otherwise identical to the pure versions.  The
remaining strict accesses of the source (`next.rank`, `next.sign_key`,
`next.scores`, `next.status_tag`/`trend`/`toneLabel`, `next.ai`, and
the rank reads of the filter/sort/dedup walk) all have the literally
constructed spread object `next` — never nullish — as their base, so
they cannot throw for any input. -/

/-- Strict property access `v.k`: TypeError on nullish bases. -/
def jsGetE (v : JsVal) (k : String) : Except String JsVal :=
  if jsIsNullish v then .error ("TypeError: cannot read properties of " ++ jsToString v)
  else .ok (jsGetF v k)

/-- `normalizeOhaasaScores` with instrumented accesses. -/
def normalizeOhaasaScoresE (scores : JsVal) : Except String JsVal :=
  if !(jsTruthy scores) || jsTypeof scores != "object" then .ok .null
  else do
    let tA ← jsGetE scores "total"
    let totOrOverall ← if jsIsNullish tA then jsGetE scores "overall" else pure tA
    let normalizedTotal := clampScore totOrOverall .null
    let t0 := clampScore (← jsGetE scores "total") .null
    let lv := clampScore (← jsGetE scores "love") .null
    let st := clampScore (← jsGetE scores "study") .null
    let mo := clampScore (← jsGetE scores "money") .null
    let he := clampScore (← jsGetE scores "health") .null
    pure (.obj [("total", totalResolved (jsNullish normalizedTotal t0) [lv, st, mo, he]),
      ("love", lv), ("study", st), ("money", mo), ("health", he)])

/-- `aiValOf` with instrumented accesses (the `next.ai.cards` and
`next.ai.summary` reads, behind the truthy-object guard). -/
def aiValE (aiRaw : JsVal) : Except String JsVal :=
  if !(jsTruthy aiRaw) || jsTypeof aiRaw != "object" then pure .null
  else do
    let cardsRaw ← jsGetE aiRaw "cards"
    let safeCards := if jsIsArray cardsRaw then cardsRaw else JsVal.null
    let sRaw ← jsGetE aiRaw "summary"
    let safeSummary := if jsTruthy sRaw && jsTypeof sRaw == "object" then sRaw else JsVal.null
    pure (JsVal.obj (jsSetFields (jsSetFields (objFieldsOf aiRaw) "cards" safeCards)
      "summary" safeSummary))

/-- `normalizeRanking` with instrumented accesses. -/
def normalizeRankingE (ranking : JsVal) (index : Int := 0) :
    Except String (JsVal × List String) := do
  let pre := normalizeRankingPre ranking index
  let scoresN ← normalizeOhaasaScoresE (jsGetF (.obj pre.1) "scores")
  let f4 := jsSetFields pre.1 "scores" scoresN
  let f5 := statusStep f4
  let aiVal ← aiValE (jsGetF (.obj f5) "ai")
  pure (.obj (jsSetFields f5 "ai" aiVal), pre.2)

/-- `normalizeFortuneJson` with instrumented accesses. -/
def normalizeFortuneJsonE (data : JsVal) (todayKst : String) :
    Except String RankingSetResult := do
  let dateCandidate := match jsGetOpt data "date_kst" with | .str s => jsTrim s | _ => ""
  let date_kst := if isDateRe dateCandidate then dateCandidate else todayKst
  let dateW : List String := if date_kst != dateCandidate then ["invalid date_kst"] else []
  let inputRankings := match jsGetOpt data "rankings" with | .arr l => l | _ => []
  let normalized ← inputRankings.enum.mapM (fun p => normalizeRankingE p.2 (Int.ofNat p.1))
  let entryWs := (normalized.map Prod.snd).flatten
  let filtered := (normalized.map Prod.fst).filter rankInRange
  let dd := dedupByRank (sortByRank filtered) []
  let warnings := dateW ++ entryWs ++ dd.2
  let declared := jsGetOpt data "status"
  let nextStatus : JsVal :=
    if warnings.length > 0 && jsStrictEqStr declared "ok" then .str "partial"
    else jsOr declared (.str "ok")
  pure
    { source := jsOr (jsGetOpt data "source") (.str "asahi_ohaasa")
      date_kst := date_kst
      updated_at_kst := jsOr (jsGetOpt data "updated_at_kst") .null
      status := nextStatus
      error_message := jsOr (jsGetOpt data "error_message") (.str "")
      rankings := dd.1
      warnings := warnings }

/-! ### Derived definitions used by the theorem statements -/

/-- A canonical score field: `null` or an integer in `[0,100]`. -/
def IsScoreField (v : JsVal) : Prop :=
  v = .null ∨ ∃ n : Int, v = .num n ∧ 0 ≤ n ∧ n ≤ 100

/-- The warning string recorded for a dropped duplicate of rank `r`. -/
def dupWarn (r : Int) : String := "duplicate rank " ++ toString r

/-- The first entry of rank `r` in a list (JS `Array.prototype.find`). -/
def firstWithRank (r : Int) (l : List JsVal) : Option JsVal :=
  l.find? (fun e => rankOf e == r)

/-- How many entries of rank `r` a list holds. -/
def countRank (r : Int) (l : List JsVal) : Nat :=
  l.countP (fun e => rankOf e == r)

/-- The clamped category scores that `Number.isFinite` keeps for the
mean fallback of `normalizeOhaasaScores`. -/
def presentCategories (s : JsVal) : List Int :=
  [clampScore (jsGetF s "love") JsVal.null, clampScore (jsGetF s "study") JsVal.null,
   clampScore (jsGetF s "money") JsVal.null,
   clampScore (jsGetF s "health") JsVal.null].filterMap
    (fun v => match v with | .num n => some n | _ => none)

/-- The original-input-order list of in-range normalized entries that
`normalizeFortuneJson` feeds into sort/dedup. -/
def filteredEntries (data : JsVal) : List JsVal :=
  let inputRankings := match jsGetOpt data "rankings" with | .arr l => l | _ => []
  ((inputRankings.enum.map (fun p => normalizeRanking p.2 (Int.ofNat p.1))).map
    Prod.fst).filter rankInRange

/-- The `invalid date_kst` warning segment of `normalizeFortuneJson`. -/
def dateWarningsOf (data : JsVal) (todayKst : String) : List String :=
  let dateCandidate := match jsGetOpt data "date_kst" with | .str s => jsTrim s | _ => ""
  let date_kst := if isDateRe dateCandidate then dateCandidate else todayKst
  if date_kst != dateCandidate then ["invalid date_kst"] else []

/-- The per-entry warning segment of `normalizeFortuneJson`. -/
def entryWarningsOf (data : JsVal) : List String :=
  let inputRankings := match jsGetOpt data "rankings" with | .arr l => l | _ => []
  ((inputRankings.enum.map (fun p => normalizeRanking p.2 (Int.ofNat p.1))).map
    Prod.snd).flatten

/-! ### Helper lemmas -/

theorem clampScore_cases (v f : JsVal) :
    clampScore v f = f ∨ ∃ n : Int, clampScore v f = .num n ∧ 0 ≤ n ∧ n ≤ 100 := by
  unfold clampScore
  cases jsParseInt v with
  | none => exact Or.inl rfl
  | some n => exact Or.inr ⟨max 0 (min 100 n), rfl, by omega, by omega⟩

theorem clampScore_isScoreField (v : JsVal) : IsScoreField (clampScore v .null) := by
  rcases clampScore_cases v .null with h | ⟨n, h, h0, h1⟩
  · exact Or.inl h
  · exact Or.inr ⟨n, h, h0, h1⟩

theorem jsNullish_isScoreField {a b : JsVal} (ha : IsScoreField a) (hb : IsScoreField b) :
    IsScoreField (jsNullish a b) := by
  rcases ha with h | ⟨n, h, h0, h1⟩ <;> subst h
  · exact hb
  · exact Or.inr ⟨n, rfl, h0, h1⟩

theorem jsParseIntStr_toString_small :
    ∀ n : Nat, n ≤ 100 → jsParseIntStr (toString ((n : Int))) = some ((n : Int)) := by decide

theorem jsParseInt_num_small {n : Int} (h0 : 0 ≤ n) (h1 : n ≤ 100) :
    jsParseInt (.num n) = some n := by
  have hn : ((n.toNat : Nat) : Int) = n := Int.toNat_of_nonneg h0
  have := jsParseIntStr_toString_small n.toNat (by omega)
  rw [hn] at this
  simpa [jsParseInt, jsToString] using this

theorem clampScore_num_id {n : Int} (h0 : 0 ≤ n) (h1 : n ≤ 100) (f : JsVal) :
    clampScore (.num n) f = .num n := by
  unfold clampScore
  rw [jsParseInt_num_small h0 h1]
  show JsVal.num (max 0 (min 100 n)) = JsVal.num n
  rw [min_eq_right h1, max_eq_right h0]

theorem totalResolved_shape (t1 : JsVal) (fields : List JsVal) (h : IsScoreField t1) :
    ∃ t : Int, totalResolved t1 fields = .num t ∧ 0 ≤ t ∧ t ≤ 100 := by
  rcases h with h | ⟨n, h, h0, h1⟩ <;> subst h
  · unfold totalResolved
    simp only [jsIsNullish, if_true]
    by_cases hc : (fields.filterMap
        (fun v => match v with | .num n => some n | _ => none)).length > 0
    · simp only [hc, if_true]
      rcases clampScore_cases
          (.num (jsRoundDiv
            ((fields.filterMap (fun v => match v with | .num n => some n | _ => none)).foldl
              (fun a b => a + b) 0)
            (fields.filterMap (fun v => match v with | .num n => some n | _ => none)).length))
          (.num 50) with h | ⟨n, h, h0, h1⟩ <;> rw [h]
      · exact ⟨50, by simp [jsIsNullish], by omega, by omega⟩
      · exact ⟨n, by simp [jsIsNullish], h0, h1⟩
    · simp only [hc, if_false]
      exact ⟨50, by simp [jsIsNullish], by omega, by omega⟩
  · exact ⟨n, by simp [totalResolved, jsIsNullish], h0, h1⟩

theorem normalizeOhaasaScores_shape (s : JsVal) :
    normalizeOhaasaScores s = .null ∨
    ∃ t : Int, ∃ lv st mo he : JsVal,
      normalizeOhaasaScores s =
        .obj [("total", .num t), ("love", lv), ("study", st), ("money", mo), ("health", he)] ∧
      0 ≤ t ∧ t ≤ 100 ∧
      IsScoreField lv ∧ IsScoreField st ∧ IsScoreField mo ∧ IsScoreField he := by
  unfold normalizeOhaasaScores
  split
  · exact Or.inl rfl
  · right
    obtain ⟨t, ht, ht0, ht1⟩ :=
      totalResolved_shape
        (jsNullish
          (clampScore (jsNullish (jsGetF s "total") (jsGetF s "overall")) .null)
          (clampScore (jsGetF s "total") .null))
        [clampScore (jsGetF s "love") .null, clampScore (jsGetF s "study") .null,
         clampScore (jsGetF s "money") .null, clampScore (jsGetF s "health") .null]
        (jsNullish_isScoreField
          (clampScore_isScoreField _) (clampScore_isScoreField _))
    exact ⟨t, _, _, _, _, by dsimp only; rw [ht], ht0, ht1,
      clampScore_isScoreField _, clampScore_isScoreField _,
      clampScore_isScoreField _, clampScore_isScoreField _⟩

theorem jsGetF_hit (k : String) (v : JsVal) (rest : List (String × JsVal)) :
    jsGetF (.obj ((k, v) :: rest)) k = v := by
  simp [jsGetF, List.find?]

theorem jsGetF_miss {k k2 : String} (h : (k == k2) = false) (v : JsVal)
    (rest : List (String × JsVal)) :
    jsGetF (.obj ((k, v) :: rest)) k2 = jsGetF (.obj rest) k2 := by
  simp [jsGetF, List.find?, h]

theorem presentCategories_bounds (s : JsVal) :
    ∀ n ∈ presentCategories s, 0 ≤ n ∧ n ≤ 100 := by
  intro n hn
  rcases List.mem_filterMap.mp hn with ⟨v, hv, hmatch⟩
  have hsf : IsScoreField v := by
    simp only [List.mem_cons, List.not_mem_nil, or_false] at hv
    rcases hv with h | h | h | h <;> (subst h; exact clampScore_isScoreField _)
  rcases hsf with h | ⟨m, h, h0, h1⟩ <;> subst h
  · simp at hmatch
  · simp only [Option.some.injEq] at hmatch
    omega

theorem foldl_add_bounds :
    ∀ (l : List Int), (∀ n ∈ l, 0 ≤ n ∧ n ≤ 100) → ∀ acc : Int,
      acc ≤ l.foldl (fun a b => a + b) acc ∧
      l.foldl (fun a b => a + b) acc ≤ acc + 100 * l.length := by
  intro l
  induction l with
  | nil => intro _ acc; simp
  | cons x xs ih =>
      intro h acc
      have hx := h x (by simp)
      have hxs : ∀ n ∈ xs, 0 ≤ n ∧ n ≤ 100 := fun n hn => h n (by simp [hn])
      have hrec := ih hxs (acc + x)
      simp only [List.foldl_cons, List.length_cons]
      constructor
      · omega
      · have := hrec.2
        push_cast at this ⊢
        omega

theorem jsRoundDiv_bounds {sum : Int} {len : Nat} (hlen : 0 < len)
    (h0 : 0 ≤ sum) (h1 : sum ≤ 100 * len) :
    0 ≤ jsRoundDiv sum len ∧ jsRoundDiv sum len ≤ 100 := by
  unfold jsRoundDiv
  have hb : (0 : Int) < 2 * len := by positivity
  constructor
  · exact Int.ediv_nonneg (by omega) (by omega)
  · have : (2 * sum + len) / (2 * (len : Int)) < 101 := by
      rw [Int.ediv_lt_iff_lt_mul hb]
      push_cast
      omega
    omega

/-- The clamp of an already-canonical score field is the identity. -/
theorem clampScore_scoreField_id {v : JsVal} (h : IsScoreField v) :
    clampScore v JsVal.null = v := by
  rcases h with h | ⟨n, h, h0, h1⟩ <;> subst h
  · rfl
  · exact clampScore_num_id h0 h1 _

/-- **C3.** Total score law of `normalizeOhaasaScores`: when neither
`total` nor `overall` parses to a finite value, the output `total` is
the rounded arithmetic mean of the present category scores when at
least one category is present, and `50` when none is. -/
theorem c3_total_law (s : JsVal)
    (hobj : jsTruthy s = true) (hty : jsTypeof s = "object")
    (htot : jsParseInt (jsGetF s "total") = none)
    (hov : jsParseInt (jsGetF s "overall") = none) :
    (presentCategories s ≠ [] →
      jsGetF (normalizeOhaasaScores s) "total" =
        .num (jsRoundDiv ((presentCategories s).foldl (fun a b => a + b) 0)
          (presentCategories s).length)) ∧
    (presentCategories s = [] →
      jsGetF (normalizeOhaasaScores s) "total" = .num 50) := by
  have hclampT : clampScore (jsGetF s "total") JsVal.null = JsVal.null := by
    unfold clampScore; rw [htot]
  have hclampN :
      clampScore (jsNullish (jsGetF s "total") (jsGetF s "overall")) JsVal.null = JsVal.null := by
    unfold jsNullish
    split
    · unfold clampScore; rw [hov]
    · unfold clampScore; rw [htot]
  have hres : normalizeOhaasaScores s =
      .obj [("total",
          totalResolved JsVal.null
            [clampScore (jsGetF s "love") JsVal.null, clampScore (jsGetF s "study") JsVal.null,
             clampScore (jsGetF s "money") JsVal.null,
             clampScore (jsGetF s "health") JsVal.null]),
        ("love", clampScore (jsGetF s "love") JsVal.null),
        ("study", clampScore (jsGetF s "study") JsVal.null),
        ("money", clampScore (jsGetF s "money") JsVal.null),
        ("health", clampScore (jsGetF s "health") JsVal.null)] := by
    unfold normalizeOhaasaScores
    rw [if_neg (by simp [hobj, hty])]
    dsimp only
    rw [hclampN, hclampT]
    rfl
  rw [hres, jsGetF_hit]
  have hcats : presentCategories s =
      [clampScore (jsGetF s "love") JsVal.null, clampScore (jsGetF s "study") JsVal.null,
       clampScore (jsGetF s "money") JsVal.null,
       clampScore (jsGetF s "health") JsVal.null].filterMap
        (fun v => match v with | .num n => some n | _ => none) := rfl
  constructor
  · intro hne
    have hlen : (presentCategories s).length > 0 := by
      cases hc : presentCategories s with
      | nil => exact absurd hc hne
      | cons a l => simp [hc]
    have hbounds := presentCategories_bounds s
    have hsum := foldl_add_bounds (presentCategories s) hbounds 0
    have havg := jsRoundDiv_bounds hlen (by simpa using hsum.1)
      (by have := hsum.2; omega)
    unfold totalResolved
    rw [← hcats]
    simp only [jsIsNullish, if_true, hlen, if_pos hlen]
    rw [clampScore_num_id havg.1 havg.2]
    rfl
  · intro hz
    unfold totalResolved
    rw [← hcats, hz]
    rfl

/-- Witness for C3: the spec's own examples — `{love:60, study:80}`
yields `total = 70`, and `{}` yields `total = 50`. -/
theorem c3_total_law_witness :
    jsGetF (normalizeOhaasaScores (.obj [("love", .num 60), ("study", .num 80)])) "total" =
      .num 70 ∧
    jsGetF (normalizeOhaasaScores (.obj [])) "total" = .num 50 := by
  constructor
  · have h := (c3_total_law (.obj [("love", .num 60), ("study", .num 80)])
      rfl rfl rfl rfl).1 (by decide)
    rw [h]
    rfl
  · have h := (c3_total_law (.obj []) rfl rfl rfl rfl).2 (by decide)
    rw [h]

/-- **C10.** Idempotence of score normalization:
`normalizeOhaasaScores (normalizeOhaasaScores s) = normalizeOhaasaScores s`
for every input value, so re-normalizing already-normalized scores (as
`generateFortune` does with a `RankingSet` entry) leaves them
unchanged. -/
theorem c10_normalize_scores_idempotent (v : JsVal) :
    normalizeOhaasaScores (normalizeOhaasaScores v) = normalizeOhaasaScores v := by
  rcases normalizeOhaasaScores_shape v with h | ⟨t, lv, st, mo, he, h, ht0, ht1, hlv, hst, hmo, hhe⟩
  · rw [h]; rfl
  · rw [h]
    unfold normalizeOhaasaScores
    rw [if_neg (by simp [jsTruthy, jsTypeof])]
    dsimp only
    have gTot : jsGetF
        (.obj [("total", .num t), ("love", lv), ("study", st), ("money", mo), ("health", he)])
        "total" = .num t := jsGetF_hit _ _ _
    have gOv : jsGetF
        (.obj [("total", .num t), ("love", lv), ("study", st), ("money", mo), ("health", he)])
        "overall" = .undef := by simp [jsGetF, List.find?]
    have gLv : jsGetF
        (.obj [("total", .num t), ("love", lv), ("study", st), ("money", mo), ("health", he)])
        "love" = lv := by simp [jsGetF, List.find?]
    have gSt : jsGetF
        (.obj [("total", .num t), ("love", lv), ("study", st), ("money", mo), ("health", he)])
        "study" = st := by simp [jsGetF, List.find?]
    have gMo : jsGetF
        (.obj [("total", .num t), ("love", lv), ("study", st), ("money", mo), ("health", he)])
        "money" = mo := by simp [jsGetF, List.find?]
    have gHe : jsGetF
        (.obj [("total", .num t), ("love", lv), ("study", st), ("money", mo), ("health", he)])
        "health" = he := by simp [jsGetF, List.find?]
    rw [gTot, gOv, gLv, gSt, gMo, gHe]
    have hTid : clampScore (JsVal.num t) JsVal.null = .num t := clampScore_num_id ht0 ht1 _
    have hNid : clampScore (jsNullish (JsVal.num t) JsVal.undef) JsVal.null = .num t := by
      show clampScore (JsVal.num t) JsVal.null = .num t
      exact hTid
    rw [hNid, hTid, clampScore_scoreField_id hlv, clampScore_scoreField_id hst,
      clampScore_scoreField_id hmo, clampScore_scoreField_id hhe]
    have hresolve : totalResolved (jsNullish (JsVal.num t) (JsVal.num t)) [lv, st, mo, he] =
        .num t := by
      show totalResolved (JsVal.num t) [lv, st, mo, he] = .num t
      rfl
    rw [hresolve]

/-- **C7.** Zodiac derivation: the wraparound Capricorn range makes
`1990-12-22` and `1990-01-19` map to "염소자리" and `1990-01-20` to
"물병자리"; every western result is `''` or one of the 12 range names;
and the Chinese zodiac is the animal at index `(year - 4) mod 12`, with
year 1996 giving "쥐". -/
theorem c7_zodiac :
    getWesternZodiac "1990-12-22" = "염소자리" ∧
    getWesternZodiac "1990-01-19" = "염소자리" ∧
    getWesternZodiac "1990-01-20" = "물병자리" ∧
    (∀ bd : String, getWesternZodiac bd = "" ∨
      getWesternZodiac bd ∈ zodiacRanges.map Prod.fst) ∧
    (∀ (bd : String) (y : Int), bd ≠ "" →
      jsToNumberStr (((jsSplitOnDash bd).get? 0).getD "") = some y → 4 ≤ y →
      getChineseZodiac bd = .str (chineseAnimals.getD ((y - 4) % 12).toNat "")) ∧
    getChineseZodiac "1996-05-05" = .str "쥐" := by
  refine ⟨by decide, by decide, by decide, ?_, ?_, by rfl⟩
  · intro bd
    unfold getWesternZodiac
    split
    · exact Or.inl rfl
    · dsimp only
      split
      · next r hr =>
          exact Or.inr (List.mem_map_of_mem Prod.fst (List.mem_of_find?_eq_some hr))
      · exact Or.inl rfl
  · intro bd y hbd hyear hy
    unfold getChineseZodiac
    rw [if_neg (by simpa using hbd)]
    rw [hyear]
    have h4 : (0 : Int) ≤ y - 4 := by omega
    have hmod : jsTruncMod (y - 4) 12 = (y - 4) % 12 := by
      unfold jsTruncMod
      rw [if_pos h4]
      norm_num
    dsimp only
    rw [hmod]
    rw [if_pos ⟨Int.emod_nonneg _ (by norm_num), Int.emod_lt_of_pos _ (by norm_num)⟩]

/-- Witness for C7's conditional part, at the spec's example
`1996-05-05`. -/
theorem c7_zodiac_witness :
    ("1996-05-05" : String) ≠ "" ∧
    jsToNumberStr (((jsSplitOnDash "1996-05-05").get? 0).getD "") = some 1996 ∧
    (4 : Int) ≤ 1996 ∧
    getChineseZodiac "1996-05-05" =
      .str (chineseAnimals.getD (((1996 : Int) - 4) % 12).toNat "") :=
  ⟨by decide, by decide, by decide,
    c7_zodiac.2.2.2.2.1 "1996-05-05" 1996 (by decide) (by decide) (by decide)⟩

/-- **C1.** Determinism of the fortune generator: the embedding is a
pure function threading its RNG state explicitly, with the seed derived
only from `(todayKst, birthdate)`; the output is a function of
`(birthdate, todayKst, options)` alone, so two invocations on
structurally identical arguments (even separately constructed option
records) produce structurally identical `FortuneView`s. -/
theorem c1_deterministic (birthdate todayKst : String) (o1 o2 : FortuneOptions)
    (hrank : o1.rank = o2.rank) (hscores : o1.scores = o2.scores)
    (hranking : o1.ranking = o2.ranking) :
    generateFortune birthdate todayKst o1 = generateFortune birthdate todayKst o2 := by
  cases o1
  cases o2
  simp only at hrank hscores hranking
  rw [hrank, hscores, hranking]

/-- Witness for C1 at a concrete input: the default options record and
a separately written structurally identical record. -/
theorem c1_deterministic_witness :
    generateFortune "2000-01-01" "2026-10-11" {} =
      generateFortune "2000-01-01" "2026-10-11"
        { rank := .null, scores := .null, ranking := .null } :=
  c1_deterministic "2000-01-01" "2026-10-11" _ _ rfl rfl rfl

/-- **C6 (counterexample).** The status set is not closed: a payload
declaring `status: "bogus"` passes its status through unchanged, so the
output status is neither `ok`, `partial` nor `error`. -/
theorem c6_status_counterexample :
    (normalizeFortuneJson (.obj [("status", .str "bogus")]) "2026-10-11").status =
      .str "bogus" ∧
    ¬((normalizeFortuneJson (.obj [("status", .str "bogus")]) "2026-10-11").status = .str "ok" ∨
      (normalizeFortuneJson (.obj [("status", .str "bogus")]) "2026-10-11").status =
        .str "partial" ∨
      (normalizeFortuneJson (.obj [("status", .str "bogus")]) "2026-10-11").status =
        .str "error") := by
  have hs : (normalizeFortuneJson (.obj [("status", .str "bogus")]) "2026-10-11").status =
      .str "bogus" := by rfl
  refine ⟨hs, ?_⟩
  rw [hs]
  rintro (h | h | h) <;> (injection h with h; exact absurd h (by decide))

/-- **C6 (amended).** The escalation law holds: non-empty warnings plus
declared `"ok"` force `"partial"`; and in general the output status is
`"partial"`, the declared status value, or the default `"ok"` — but no
closed three-value set is enforced. -/
theorem c6_status_amended (d : JsVal) (todayKst : String) :
    ((normalizeFortuneJson d todayKst).warnings.length > 0 →
      jsStrictEqStr (jsGetOpt d "status") "ok" = true →
      (normalizeFortuneJson d todayKst).status = .str "partial") ∧
    ((normalizeFortuneJson d todayKst).status = .str "partial" ∨
     (normalizeFortuneJson d todayKst).status = jsGetOpt d "status" ∨
     (normalizeFortuneJson d todayKst).status = .str "ok") := by
  have he : (normalizeFortuneJson d todayKst).status =
      (if ((normalizeFortuneJson d todayKst).warnings.length > 0 &&
            jsStrictEqStr (jsGetOpt d "status") "ok") = true then JsVal.str "partial"
       else jsOr (jsGetOpt d "status") (.str "ok")) := rfl
  constructor
  · intro h1 h2
    rw [he, if_pos]
    rw [Bool.and_eq_true]
    exact ⟨decide_eq_true h1, h2⟩
  · by_cases hc : ((normalizeFortuneJson d todayKst).warnings.length > 0 &&
        jsStrictEqStr (jsGetOpt d "status") "ok") = true
    · exact Or.inl (by rw [he, if_pos hc])
    · rw [he, if_neg hc]
      unfold jsOr
      split
      · exact Or.inr (Or.inl rfl)
      · exact Or.inr (Or.inr rfl)

/-- Witness for the amended C6 at a concrete input: a warned payload
declaring `ok` is escalated to `partial`. -/
theorem c6_status_amended_witness :
    (normalizeFortuneJson (.obj [("status", .str "ok")]) "2026-10-11").warnings.length > 0 ∧
    jsStrictEqStr (jsGetOpt (.obj [("status", .str "ok")]) "status") "ok" = true ∧
    (normalizeFortuneJson (.obj [("status", .str "ok")]) "2026-10-11").status =
      .str "partial" := by
  refine ⟨by decide, by decide, ?_⟩
  exact (c6_status_amended (.obj [("status", .str "ok")]) "2026-10-11").1
    (by decide) (by decide)

theorem jsGetF_obj (l : List (String × JsVal)) (k : String) :
    jsGetF (.obj l) k = ((l.find? (fun p => p.1 == k)).map Prod.snd).getD .undef := rfl

theorem find?_map_set {k : String} (v : JsVal) :
    ∀ (f : List (String × JsVal)), f.any (fun p => p.1 == k) = true →
      (f.map (fun p => if p.1 == k then (k, v) else p)).find? (fun p => p.1 == k) =
        some (k, v) := by
  intro f
  induction f with
  | nil => intro h; simp at h
  | cons a rest ih =>
      intro h
      by_cases ha : (a.1 == k) = true
      · simp [List.find?, ha]
      · have ha' : (a.1 == k) = false := by simpa using ha
        have hrest : rest.any (fun p => p.1 == k) = true := by
          simp only [List.any_cons, ha', Bool.false_or] at h
          exact h
        simp only [List.map_cons, ha', Bool.false_eq_true, if_false, List.find?]
        exact ih hrest

theorem find?_none_of_any_false {k : String} (f : List (String × JsVal))
    (hany : ¬ f.any (fun p => p.1 == k) = true) :
    f.find? (fun p => p.1 == k) = none := by
  rw [List.find?_eq_none]
  intro p hp hpk
  exact hany (List.any_eq_true.mpr ⟨p, hp, hpk⟩)

theorem jsGetF_set_same (f : List (String × JsVal)) (k : String) (v : JsVal) :
    jsGetF (.obj (jsSetFields f k v)) k = v := by
  rw [jsGetF_obj]
  unfold jsSetFields
  by_cases hany : f.any (fun p => p.1 == k) = true
  · rw [if_pos hany, find?_map_set v f hany]
    rfl
  · rw [if_neg hany, List.find?_append, find?_none_of_any_false f hany]
    simp [List.find?]

theorem find?_map_set_other {k k2 : String} (h : (k == k2) = false) (v : JsVal) :
    ∀ (f : List (String × JsVal)),
      (f.map (fun p => if p.1 == k then (k, v) else p)).find? (fun p => p.1 == k2) =
        f.find? (fun p => p.1 == k2) := by
  intro f
  induction f with
  | nil => rfl
  | cons a rest ih =>
      by_cases ha : (a.1 == k) = true
      · have hk : a.1 = k := by simpa using ha
        have ha2 : (a.1 == k2) = false := by rw [hk]; exact h
        simp only [List.map_cons, if_pos ha, List.find?, h, ha2]
        exact ih
      · have ha' : (a.1 == k) = false := by simpa using ha
        simp only [List.map_cons, ha', Bool.false_eq_true, if_false, List.find?]
        cases hb : (a.1 == k2) with
        | true => rfl
        | false => exact ih

theorem jsGetF_set_other {k k2 : String} (h : (k == k2) = false)
    (f : List (String × JsVal)) (v : JsVal) :
    jsGetF (.obj (jsSetFields f k v)) k2 = jsGetF (.obj f) k2 := by
  rw [jsGetF_obj, jsGetF_obj]
  unfold jsSetFields
  by_cases hany : f.any (fun p => p.1 == k) = true
  · rw [if_pos hany, find?_map_set_other h v f]
  · rw [if_neg hany, List.find?_append]
    have hone : List.find? (fun p => p.1 == k2) [(k, v)] = none := by
      simp [List.find?, h]
    rw [hone]
    cases List.find? (fun p => p.1 == k2) f <;> rfl

/-- The `rank` field of a normalized entry is exactly the repaired
rank value. -/
theorem normalizeRanking_rank (raw : JsVal) (i : Int) :
    jsGetF (normalizeRanking raw i).1 "rank" = rankValOf raw := by
  unfold normalizeRanking statusStep normalizeRankingPre signKoStep
  dsimp only
  rw [jsGetF_set_other (by decide), jsGetF_set_other (by decide),
    jsGetF_set_other (by decide)]
  split
  · rw [jsGetF_set_other (by decide), jsGetF_set_other (by decide), jsGetF_set_same]
  · rw [jsGetF_set_other (by decide), jsGetF_set_same]

/-- The warnings of a normalized entry, in push order. -/
theorem normalizeRanking_warnings (raw : JsVal) (i : Int) :
    (normalizeRanking raw i).2 =
      (if jsIsNullish (rankValOf raw) then ["invalid rank at index " ++ toString i]
       else []) ++
      (if jsIsNullish (signKeyValOf raw) then ["missing sign_key at index " ++ toString i]
       else []) := rfl

/-- **C4.** Rank repair: integer ranks are accepted directly, string
ranks parse their concatenated digit characters, any other value parses
to NaN; a missing or out-of-[1,12] parse resolves the rank to `null`
and records `"invalid rank at index {i}"`; an in-range parse is kept.
The raw string rank `"13"` parses to 13, is resolved to `null` with the
warning, and the entry is excluded from the final list. -/
theorem c4_rank_repair :
    (∀ n : Int, parseRank (.num n) = some n) ∧
    (∀ v : JsVal, (∀ n : Int, v ≠ .num n) → (∀ s : String, v ≠ .str s) →
      parseRank v = none) ∧
    parseRank (.str "13") = some 13 ∧
    (∀ (raw : JsVal) (i : Int),
      (parseRank (rawRankOf raw) = none ∨
        ∃ n : Int, parseRank (rawRankOf raw) = some n ∧ (n < 1 ∨ 12 < n)) →
      jsGetF (normalizeRanking raw i).1 "rank" = .null ∧
      ("invalid rank at index " ++ toString i) ∈ (normalizeRanking raw i).2) ∧
    (∀ (raw : JsVal) (i : Int) (n : Int),
      parseRank (rawRankOf raw) = some n → 1 ≤ n → n ≤ 12 →
      jsGetF (normalizeRanking raw i).1 "rank" = .num n) ∧
    ((normalizeFortuneJson (.obj [("rankings", .arr [.obj [("rank", .str "13")]])])
        "2026-10-11").rankings = [] ∧
     ("invalid rank at index " ++ toString (0 : Int)) ∈
       (normalizeFortuneJson (.obj [("rankings", .arr [.obj [("rank", .str "13")]])])
         "2026-10-11").warnings) := by
  refine ⟨fun n => rfl, ?_, by decide, ?_, ?_, by rfl, by decide⟩
  · intro v hnum hstr
    cases v with
    | num n => exact absurd rfl (hnum n)
    | str s => exact absurd rfl (hstr s)
    | _ => rfl
  · intro raw i h
    have hval : rankValOf raw = .null := by
      unfold rankValOf
      rcases h with h | ⟨n, h, hout⟩
      · rw [h]
      · rw [h]
        exact if_neg (by omega)
    refine ⟨by rw [normalizeRanking_rank, hval], ?_⟩
    rw [normalizeRanking_warnings, hval]
    exact List.mem_append_left _ (by simp [jsIsNullish])
  · intro raw i n h h1 h12
    have hval : rankValOf raw = .num n := by
      unfold rankValOf
      rw [h]
      exact if_pos ⟨h1, h12⟩
    rw [normalizeRanking_rank, hval]

/-- Witness for C4's conditional parts at the spec's `"13"` example. -/
theorem c4_rank_repair_witness :
    parseRank (rawRankOf (.obj [("rank", .str "13")])) = some 13 ∧
    ((12 : Int) < 13 ∨ (13 : Int) < 1) ∧
    jsGetF (normalizeRanking (.obj [("rank", .str "13")]) 0).1 "rank" = .null ∧
    ("invalid rank at index " ++ toString (0 : Int)) ∈
      (normalizeRanking (.obj [("rank", .str "13")]) 0).2 := by
  have h := c4_rank_repair.2.2.2.1 (.obj [("rank", .str "13")]) 0
    (Or.inr ⟨13, by decide, Or.inr (by decide)⟩)
  exact ⟨by decide, Or.inl (by decide), h.1, h.2⟩

theorem mod_lt_u32 (a : Nat) : a % u32size < u32size :=
  Nat.mod_lt _ (by norm_num [u32size])

theorem xor_lt_u32 {a b : Nat} (ha : a < u32size) (hb : b < u32size) :
    a ^^^ b < u32size := by
  have h32 : u32size = 2 ^ 32 := by norm_num [u32size]
  rw [h32] at ha hb ⊢
  exact Nat.xor_lt_two_pow ha hb

theorem shiftRight_lt_u32 {a : Nat} (h : a < u32size) (k : Nat) : a >>> k < u32size :=
  lt_of_le_of_lt (by rw [Nat.shiftRight_eq_div_pow]; exact Nat.div_le_self _ _) h

theorem mulberryNext_lt (st : Nat) : (mulberryNext st).1 < u32size := by
  unfold mulberryNext
  dsimp only
  exact xor_lt_u32 (xor_lt_u32 (mod_lt_u32 _) (mod_lt_u32 _))
    (shiftRight_lt_u32 (xor_lt_u32 (mod_lt_u32 _) (mod_lt_u32 _)) 14)

theorem rngNextInt_bounds (mn mx : Int) (st : Nat) (h : mn ≤ mx) :
    mn ≤ (rngNextInt mn mx st).1 ∧ (rngNextInt mn mx st).1 ≤ mx := by
  unfold rngNextInt
  dsimp only
  have hlt := mulberryNext_lt st
  have hrpos : 0 < (mx - mn + 1).toNat := by omega
  have hr : ((mx - mn + 1).toNat : Int) = mx - mn + 1 := Int.toNat_of_nonneg (by omega)
  have hdiv : (mulberryNext st).1 * (mx - mn + 1).toNat / u32size < (mx - mn + 1).toNat := by
    rw [Nat.div_lt_iff_lt_mul (by norm_num [u32size])]
    calc (mulberryNext st).1 * (mx - mn + 1).toNat
        < u32size * (mx - mn + 1).toNat := (Nat.mul_lt_mul_right hrpos).mpr hlt
      _ = (mx - mn + 1).toNat * u32size := Nat.mul_comm _ _
  generalize hg : (mulberryNext st).1 * (mx - mn + 1).toNat / u32size = q at hdiv ⊢
  have hcast : Int.ofNat q < mx - mn + 1 := by
    rw [← hr]
    exact Int.ofNat_lt.mpr hdiv
  have hq0 : (0 : Int) ≤ Int.ofNat q := Int.ofNat_nonneg q
  constructor
  · omega
  · omega

theorem getOverallRangeByRank_cases (rank : JsVal) :
    getOverallRangeByRank rank = none ∨
    ∃ mn mx : Int, getOverallRangeByRank rank = some (mn, mx) ∧
      0 ≤ mn ∧ mn ≤ mx ∧ mx ≤ 100 := by
  unfold getOverallRangeByRank
  split
  · exact Or.inr ⟨85, 100, rfl, by norm_num, by norm_num, by norm_num⟩
  split
  · exact Or.inr ⟨65, 85, rfl, by norm_num, by norm_num, by norm_num⟩
  split
  · exact Or.inr ⟨45, 65, rfl, by norm_num, by norm_num, by norm_num⟩
  split
  · exact Or.inr ⟨20, 45, rfl, by norm_num, by norm_num, by norm_num⟩
  · exact Or.inl rfl

theorem normalizeOhaasaScores_getOpt_bounds (s : JsVal) (key : String) (n : Int)
    (h : jsGetOpt (normalizeOhaasaScores s) key = .num n) : 0 ≤ n ∧ n ≤ 100 := by
  rcases normalizeOhaasaScores_shape s with hs | ⟨t, lv, st, mo, he, hs, ht0, ht1, hlv, hst, hmo, hhe⟩ <;>
    rw [hs] at h
  · simp [jsGetOpt, jsIsNullish] at h
  · rw [jsGetOpt] at h
    rw [if_neg (by simp [jsIsNullish])] at h
    rw [jsGetF_obj] at h
    have hmem : ∀ p ∈ [("total", JsVal.num t), ("love", lv), ("study", st),
        ("money", mo), ("health", he)], ∀ m : Int, p.2 = .num m → 0 ≤ m ∧ m ≤ 100 := by
      intro p hp m hm
      simp only [List.mem_cons, List.not_mem_nil, or_false] at hp
      rcases hp with h | h | h | h | h <;> subst h <;> simp only at hm
      · cases hm; exact ⟨ht0, ht1⟩
      · rcases hlv with h | ⟨mm, h, h0, h1⟩ <;> rw [h] at hm
        · cases hm
        · cases hm; exact ⟨h0, h1⟩
      · rcases hst with h | ⟨mm, h, h0, h1⟩ <;> rw [h] at hm
        · cases hm
        · cases hm; exact ⟨h0, h1⟩
      · rcases hmo with h | ⟨mm, h, h0, h1⟩ <;> rw [h] at hm
        · cases hm
        · cases hm; exact ⟨h0, h1⟩
      · rcases hhe with h | ⟨mm, h, h0, h1⟩ <;> rw [h] at hm
        · cases hm
        · cases hm; exact ⟨h0, h1⟩
    cases hf : List.find? (fun p => p.1 == key)
        [("total", JsVal.num t), ("love", lv), ("study", st), ("money", mo), ("health", he)] with
    | none => rw [hf] at h; cases h
    | some p =>
        rw [hf] at h
        exact hmem p (List.mem_of_find?_eq_some hf) n h

theorem scoreForStep_bounds (ns : JsVal) (tr : Option (Int × Int)) (key : String) (st : Nat)
    (hns : ∀ (k : String) (n : Int), jsGetOpt ns k = .num n → 0 ≤ n ∧ n ≤ 100)
    (htr : tr = none ∨ ∃ mn mx : Int, tr = some (mn, mx) ∧ 0 ≤ mn ∧ mn ≤ mx ∧ mx ≤ 100) :
    0 ≤ (scoreForStep ns tr key st).1 ∧ (scoreForStep ns tr key st).1 ≤ 100 := by
  unfold scoreForStep
  split
  · next hfin =>
    cases hq : jsGetOpt ns key with
    | num n => exact hns key n hq
    | _ => rw [hq] at hfin; simp [jsIsFiniteNum] at hfin
  · have hdefault := rngNextInt_bounds 25 98 st (by norm_num)
    rcases htr with h | ⟨mn, mx, h, h0, hle, h100⟩ <;> subst h <;>
      cases hk : (key == "total") <;> dsimp only
    · exact ⟨by omega, by omega⟩
    · exact ⟨by omega, by omega⟩
    · exact ⟨by omega, by omega⟩
    · have := rngNextInt_bounds mn mx st hle
      exact ⟨by omega, by omega⟩

theorem card_score (k : String) (s : Int) (a stg : JsVal) :
    ((createCardFromAi k s a stg).getD (createFallbackCard k s)).score = s := by
  unfold createCardFromAi
  dsimp only
  split
  · rfl
  · rfl

theorem buildCards_score_bounds (ns : JsVal) (tr : Option (Int × Int)) (ac stg : JsVal)
    (hns : ∀ (k : String) (n : Int), jsGetOpt ns k = .num n → 0 ≤ n ∧ n ≤ 100)
    (htr : tr = none ∨ ∃ mn mx : Int, tr = some (mn, mx) ∧ 0 ≤ mn ∧ mn ≤ mx ∧ mx ≤ 100) :
    ∀ (keys : List String) (st : Nat), ∀ c ∈ (buildCards ns tr ac stg keys st).1,
      0 ≤ c.score ∧ c.score ≤ 100 := by
  intro keys
  induction keys with
  | nil => intro st c hc; simp [buildCards] at hc
  | cons key rest ih =>
      intro st c hc
      unfold buildCards at hc
      dsimp only at hc
      rcases List.mem_cons.mp hc with h | h
      · subst h
        rw [card_score]
        exact scoreForStep_bounds ns tr key st hns htr
      · exact ih _ c h

/-- **C2.** Score bounds: every one of the five card scores produced by
`generateFortune` is an integer in `[0,100]` (drawn from normalized
scores, a rank-dependent range, or the default `[25,98]` sample), and
every non-null field of a `normalizeOhaasaScores` result is an integer
in `[0,100]`. -/
theorem c2_score_bounds :
    (∀ (birthdate todayKst : String) (o : FortuneOptions),
      ∀ c ∈ (generateFortune birthdate todayKst o).fortunes,
        0 ≤ c.score ∧ c.score ≤ 100) ∧
    (∀ (s : JsVal) (fl : List (String × JsVal)), normalizeOhaasaScores s = .obj fl →
      ∀ p ∈ fl, p.2 = .null ∨ ∃ n : Int, p.2 = .num n ∧ 0 ≤ n ∧ n ≤ 100) := by
  constructor
  · intro birthdate todayKst o c hc
    have hf : (generateFortune birthdate todayKst o).fortunes =
        (buildCards (normalizedScoresOf o) (totalRangeOf o)
          (jsOr (jsGetOpt (jsGetOpt (normalizedRankingOf o) "ai") "cards") .null)
          (jsGetOpt (normalizedRankingOf o) "status_tag") FORTUNE_KEYS
          (createSeededRandom (todayKst ++ "|" ++ birthdate ++ "|ohaasa-v2"))).1 := rfl
    rw [hf] at hc
    refine buildCards_score_bounds _ _ _ _ ?_ ?_ _ _ c hc
    · intro k n h
      exact normalizeOhaasaScores_getOpt_bounds _ k n h
    · unfold totalRangeOf
      split
      · exact getOverallRangeByRank_cases o.rank
      · exact Or.inl rfl
  · intro s fl hfl p hp
    rcases normalizeOhaasaScores_shape s with h | ⟨t, lv, st, mo, he, h, ht0, ht1, hlv, hst, hmo, hhe⟩ <;>
      rw [h] at hfl
    · cases hfl
    · cases hfl
      simp only [List.mem_cons, List.not_mem_nil, or_false] at hp
      rcases hp with h | h | h | h | h <;> subst h
      · exact Or.inr ⟨t, rfl, ht0, ht1⟩
      · exact hlv
      · exact hst
      · exact hmo
      · exact hhe

/-- Witness for C2 at a concrete input: the first card of a concrete
fortune has its score in `[0,100]`. -/
theorem c2_score_bounds_witness :
    (generateFortune "2000-01-01" "2026-10-11" {}).fortunes.head! ∈
      (generateFortune "2000-01-01" "2026-10-11" {}).fortunes ∧
    0 ≤ (generateFortune "2000-01-01" "2026-10-11" {}).fortunes.head!.score ∧
    (generateFortune "2000-01-01" "2026-10-11" {}).fortunes.head!.score ≤ 100 := by
  have hne : (generateFortune "2000-01-01" "2026-10-11" {}).fortunes ≠ [] := by
    have hlen : (generateFortune "2000-01-01" "2026-10-11" {}).fortunes.length = 5 := by rfl
    intro h
    rw [h] at hlen
    cases hlen
  have hmem := List.head!_mem_self hne
  have h := c2_score_bounds.1 "2000-01-01" "2026-10-11" {} _ hmem
  exact ⟨hmem, h.1, h.2⟩

theorem rngPick_mem {α : Type} (l : List α) (d : α) (st : Nat) (h : l ≠ []) :
    (rngPick l d st).1 ∈ l := by
  unfold rngPick
  dsimp only
  have hlt := mulberryNext_lt st
  have hlen : 0 < l.length := List.length_pos.mpr h
  have hidx : (mulberryNext st).1 * l.length / u32size < l.length := by
    rw [Nat.div_lt_iff_lt_mul (by norm_num [u32size])]
    calc (mulberryNext st).1 * l.length
        < u32size * l.length := (Nat.mul_lt_mul_right hlen).mpr hlt
      _ = l.length * u32size := Nat.mul_comm _ _
  rw [List.getD_eq_getElem l d hidx]
  exact List.getElem_mem hidx

/-- **C8 (counterexample).** The AI-provided `lucky_points.number` is
used without range checking: an entry carrying `number: 42` yields a
lucky number of 42, outside `[1,9]`. -/
theorem c8_lucky_counterexample :
    (generateFortune "2000-01-01" "2026-10-11"
      { rank := .null, scores := .null,
        ranking := .obj [("ai", .obj [("lucky_points",
          .obj [("number", .num 42)])])] }).lucky.number = .num 42 ∧
    ¬((42 : Int) ≤ 9) := by
  constructor
  · rfl
  · decide

/-- **C8 (amended).** The lucky bundle prefers AI-provided
`lucky_points` fields field-by-field; the `[1,9]` bound holds for the
sampled fallback number (when the AI number is not an integer), while
an AI-provided integer number is used verbatim even outside `[1,9]`;
missing `item`/`keyword`/`color`/`colorName` fields are filled from the
fixed fallback pools. -/
theorem c8_lucky_amended (birthdate todayKst : String) (o : FortuneOptions) :
    (∀ k : Int, jsGetOpt (aiLuckyOf o) "number" = .num k →
      (generateFortune birthdate todayKst o).lucky.number = .num k) ∧
    (jsIsInteger (jsGetOpt (aiLuckyOf o) "number") = false →
      ∃ n : Int, (generateFortune birthdate todayKst o).lucky.number = .num n ∧
        1 ≤ n ∧ n ≤ 9) ∧
    (jsTruthy (jsGetOpt (aiLuckyOf o) "item") = true →
      (generateFortune birthdate todayKst o).lucky.item = jsGetOpt (aiLuckyOf o) "item") ∧
    (jsTruthy (jsGetOpt (aiLuckyOf o) "item") = false →
      ∃ s ∈ FALLBACK_ITEMS, (generateFortune birthdate todayKst o).lucky.item = .str s) ∧
    (jsTruthy (jsGetOpt (aiLuckyOf o) "keyword") = true →
      (generateFortune birthdate todayKst o).lucky.keyword =
        jsGetOpt (aiLuckyOf o) "keyword") ∧
    (jsTruthy (jsGetOpt (aiLuckyOf o) "keyword") = false →
      ∃ s ∈ FALLBACK_KEYWORDS,
        (generateFortune birthdate todayKst o).lucky.keyword = .str s) ∧
    (jsTruthy (jsGetOpt (aiLuckyOf o) "color_hex") = true →
      (generateFortune birthdate todayKst o).lucky.color =
        jsGetOpt (aiLuckyOf o) "color_hex") ∧
    (jsTruthy (jsGetOpt (aiLuckyOf o) "color_hex") = false →
      ∃ p ∈ FALLBACK_LUCKY_COLORS,
        (generateFortune birthdate todayKst o).lucky.color = .str p.2) ∧
    (jsTruthy (jsGetOpt (aiLuckyOf o) "color_name") = true →
      (generateFortune birthdate todayKst o).lucky.colorName =
        jsGetOpt (aiLuckyOf o) "color_name") ∧
    (jsTruthy (jsGetOpt (aiLuckyOf o) "color_name") = false →
      ∃ p ∈ FALLBACK_LUCKY_COLORS,
        (generateFortune birthdate todayKst o).lucky.colorName = .str p.1) := by
  have hl : (generateFortune birthdate todayKst o).lucky = luckyOf birthdate todayKst o := rfl
  rw [hl]
  unfold luckyOf
  dsimp only
  refine ⟨?_, ?_, ?_, ?_, ?_, ?_, ?_, ?_, ?_, ?_⟩
  · intro k h
    rw [h, if_pos (show jsIsInteger (JsVal.num k) = true from rfl)]
  · intro h
    rw [if_neg (by rw [h]; simp)]
    dsimp only
    have hb := rngNextInt_bounds 1 9
      (rngPick FALLBACK_LUCKY_COLORS ("", "") (cardsBuildOf birthdate todayKst o).2).2
      (by norm_num)
    exact ⟨_, rfl, hb.1, hb.2⟩
  · intro h
    rw [if_pos h]
  · intro h
    rw [if_neg (by rw [h]; simp)]
    dsimp only
    exact ⟨_, rngPick_mem FALLBACK_ITEMS "" _ (by simp [FALLBACK_ITEMS]), rfl⟩
  · intro h
    rw [if_pos h]
  · intro h
    rw [if_neg (by rw [h]; simp)]
    dsimp only
    exact ⟨_, rngPick_mem FALLBACK_KEYWORDS "" _ (by simp [FALLBACK_KEYWORDS]), rfl⟩
  · intro h
    unfold jsOr
    rw [if_pos h]
  · intro h
    unfold jsOr
    rw [if_neg (by rw [h]; simp)]
    exact ⟨_, rngPick_mem FALLBACK_LUCKY_COLORS ("", "") _
      (by simp [FALLBACK_LUCKY_COLORS]), rfl⟩
  · intro h
    unfold jsOr
    rw [if_pos h]
  · intro h
    unfold jsOr
    rw [if_neg (by rw [h]; simp)]
    exact ⟨_, rngPick_mem FALLBACK_LUCKY_COLORS ("", "") _
      (by simp [FALLBACK_LUCKY_COLORS]), rfl⟩

/-- Witness for the amended C8 at a concrete input: with no AI data the
fallback number is sampled in `[1,9]`. -/
theorem c8_lucky_amended_witness :
    jsIsInteger (jsGetOpt (aiLuckyOf {}) "number") = false ∧
    (∃ n : Int, (generateFortune "2000-01-01" "2026-10-11" {}).lucky.number = .num n ∧
      1 ≤ n ∧ n ≤ 9) :=
  ⟨by decide, (c8_lucky_amended "2000-01-01" "2026-10-11" {}).2.1 (by decide)⟩

theorem normalizeFortuneJson_rankings (d : JsVal) (todayKst : String) :
    (normalizeFortuneJson d todayKst).rankings =
      (dedupByRank (sortByRank (filteredEntries d)) []).1 := rfl

theorem normalizeFortuneJson_warnings_eq (d : JsVal) (todayKst : String) :
    (normalizeFortuneJson d todayKst).warnings =
      dateWarningsOf d todayKst ++ entryWarningsOf d ++
        (dedupByRank (sortByRank (filteredEntries d)) []).2 := rfl

theorem insertByRank_perm (x : JsVal) (l : List JsVal) :
    (insertByRank x l).Perm (x :: l) := by
  induction l with
  | nil => exact List.Perm.refl _
  | cons y ys ih =>
      unfold insertByRank
      split
      · exact ((ih.cons y).trans (List.Perm.swap x y ys))
      · exact List.Perm.refl _

theorem sortByRank_perm (l : List JsVal) : (sortByRank l).Perm l := by
  induction l with
  | nil => exact List.Perm.refl _
  | cons x xs ih =>
      unfold sortByRank
      exact (insertByRank_perm x (sortByRank xs)).trans (ih.cons x)

theorem insertByRank_pairwise (x : JsVal) (l : List JsVal)
    (h : l.Pairwise (fun a b => rankOf a ≤ rankOf b)) :
    (insertByRank x l).Pairwise (fun a b => rankOf a ≤ rankOf b) := by
  induction l with
  | nil => simp [insertByRank]
  | cons y ys ih =>
      unfold insertByRank
      rcases List.pairwise_cons.mp h with ⟨hy, hys⟩
      split
      · next hyx =>
        refine List.pairwise_cons.mpr ⟨?_, ih hys⟩
        intro z hz
        have hz2 : z ∈ x :: ys := (insertByRank_perm x ys).mem_iff.mp hz
        rcases List.mem_cons.mp hz2 with h | h
        · subst h; omega
        · exact hy z h
      · next hyx =>
        refine List.pairwise_cons.mpr ⟨?_, h⟩
        intro z hz
        rcases List.mem_cons.mp hz with h | h
        · subst h; omega
        · have := hy z h; omega

theorem sortByRank_pairwise (l : List JsVal) :
    (sortByRank l).Pairwise (fun a b => rankOf a ≤ rankOf b) := by
  induction l with
  | nil => simp [sortByRank]
  | cons x xs ih => exact insertByRank_pairwise x (sortByRank xs) ih

theorem dedupByRank_sublist (l : List JsVal) :
    ∀ seen : List Int, (dedupByRank l seen).1.Sublist l := by
  induction l with
  | nil => intro seen; simp [dedupByRank]
  | cons e rest ih =>
      intro seen
      unfold dedupByRank
      split
      · exact (ih seen).cons e
      · exact (ih (rankOf e :: seen)).cons₂ e

theorem dedupByRank_nodup (l : List JsVal) :
    ∀ seen : List Int,
      ((dedupByRank l seen).1.map rankOf).Nodup ∧
      ∀ r ∈ seen, r ∉ (dedupByRank l seen).1.map rankOf := by
  induction l with
  | nil => intro seen; simp [dedupByRank]
  | cons e rest ih =>
      intro seen
      unfold dedupByRank
      split
      · exact ⟨(ih seen).1, (ih seen).2⟩
      · next hseen =>
        obtain ⟨hnd, hdisj⟩ := ih (rankOf e :: seen)
        constructor
        · dsimp only [List.map_cons]
          refine List.nodup_cons.mpr ⟨?_, hnd⟩
          exact hdisj (rankOf e) (by simp)
        · intro r hr
          dsimp only [List.map_cons]
          rw [List.mem_cons]
          rintro (h | h)
          · exact hseen (h ▸ hr)
          · exact hdisj r (by simp [hr]) h

theorem rankInRange_bounds {e : JsVal} (h : rankInRange e = true) :
    ∃ n : Int, jsGetF e "rank" = .num n ∧ 1 ≤ n ∧ n ≤ 12 ∧ rankOf e = n := by
  unfold rankInRange at h
  rw [Bool.and_eq_true, Bool.and_eq_true] at h
  obtain ⟨⟨hint, hge⟩, hle⟩ := h
  cases hq : jsGetF e "rank" with
  | num n =>
      refine ⟨n, rfl, ?_, ?_, ?_⟩
      · rw [hq] at hge
        unfold jsGEInt jsToNumber at hge
        simpa using hge
      · rw [hq] at hle
        unfold jsLEInt jsToNumber at hle
        simpa using hle
      · unfold rankOf
        rw [hq]
  | _ => rw [hq] at hint; simp [jsIsInteger] at hint

theorem filteredEntries_bounds (d : JsVal) :
    ∀ e ∈ filteredEntries d, ∃ n : Int, jsGetF e "rank" = .num n ∧ 1 ≤ n ∧ n ≤ 12 ∧
      rankOf e = n := by
  intro e he
  unfold filteredEntries at he
  exact rankInRange_bounds (List.of_mem_filter he)

theorem firstWithRank_insert_eq {r : Int} (x : JsVal) (l : List JsVal)
    (h : rankOf x = r) : firstWithRank r (insertByRank x l) = some x := by
  induction l with
  | nil => simp [insertByRank, firstWithRank, List.find?, h]
  | cons y ys ih =>
      unfold insertByRank
      split
      · next hyx =>
        have hy : (rankOf y == r) = false := by
          simp only [beq_eq_false_iff_ne, ne_eq]
          omega
        unfold firstWithRank at ih ⊢
        simp only [List.find?, hy]
        exact ih
      · unfold firstWithRank
        simp [List.find?, h]

theorem firstWithRank_insert_ne {r : Int} (x : JsVal) (l : List JsVal)
    (h : rankOf x ≠ r) : firstWithRank r (insertByRank x l) = firstWithRank r l := by
  have hx : (rankOf x == r) = false := by simpa using h
  induction l with
  | nil => simp [insertByRank, firstWithRank, List.find?, hx]
  | cons y ys ih =>
      unfold insertByRank
      split
      · unfold firstWithRank at ih ⊢
        simp only [List.find?]
        cases hy : (rankOf y == r) with
        | true => rfl
        | false => exact ih
      · unfold firstWithRank
        simp only [List.find?, hx]

theorem firstWithRank_sort {r : Int} (l : List JsVal) :
    firstWithRank r (sortByRank l) = firstWithRank r l := by
  induction l with
  | nil => rfl
  | cons x xs ih =>
      unfold sortByRank
      by_cases hx : rankOf x = r
      · rw [firstWithRank_insert_eq x _ hx]
        unfold firstWithRank
        simp [List.find?, hx]
      · rw [firstWithRank_insert_ne x _ hx, ih]
        unfold firstWithRank
        simp only [List.find?]
        have : (rankOf x == r) = false := by simpa using hx
        rw [this]

theorem firstWithRank_dedup {r : Int} (l : List JsVal) :
    ∀ seen : List Int, firstWithRank r (dedupByRank l seen).1 =
      if r ∈ seen then none else firstWithRank r l := by
  induction l with
  | nil => intro seen; simp [dedupByRank, firstWithRank, List.find?]
  | cons e rest ih =>
      intro seen
      unfold dedupByRank
      split
      · next hseen =>
        rw [ih seen]
        by_cases hr : r ∈ seen
        · simp only [if_pos hr]
        · simp only [if_neg hr]
          have hne : (rankOf e == r) = false := by
            simp only [beq_eq_false_iff_ne, ne_eq]
            intro h
            exact hr (h ▸ hseen)
          unfold firstWithRank
          simp only [List.find?, hne]
      · next hseen =>
        by_cases hr : r ∈ seen
        · have hne : (rankOf e == r) = false := by
            simp only [beq_eq_false_iff_ne, ne_eq]
            intro h
            exact hseen (h ▸ hr)
          unfold firstWithRank
          simp only [List.find?, hne]
          have := ih (rankOf e :: seen)
          unfold firstWithRank at this
          rw [this, if_pos (by simp [hr]), if_pos hr]
        · by_cases he : rankOf e = r
          · unfold firstWithRank
            simp only [List.find?, (by simpa using he : (rankOf e == r) = true)]
            rw [if_neg hr]
          · have hne : (rankOf e == r) = false := by simpa using he
            unfold firstWithRank
            simp only [List.find?, hne]
            have := ih (rankOf e :: seen)
            unfold firstWithRank at this
            rw [this, if_neg ?_, if_neg hr]
            simp only [List.mem_cons]
            rintro (h | h)
            · exact he h.symm
            · exact hr h

theorem string_eq_of_data_eq {a b : String} (h : a.data = b.data) : a = b := by
  cases a; cases b; exact congrArg String.mk h

theorem string_append_left_cancel {s a b : String} (h : s ++ a = s ++ b) : a = b := by
  have hd : (s ++ a).data = (s ++ b).data := by rw [h]
  rw [String.data_append, String.data_append] at hd
  exact string_eq_of_data_eq (List.append_cancel_left hd)

theorem toString_int_inj_small {r1 r2 : Int} (h01 : 0 ≤ r1) (h11 : r1 ≤ 100)
    (h02 : 0 ≤ r2) (h12 : r2 ≤ 100) (h : toString r1 = toString r2) : r1 = r2 := by
  have e1 : ((r1.toNat : Nat) : Int) = r1 := Int.toNat_of_nonneg h01
  have e2 : ((r2.toNat : Nat) : Int) = r2 := Int.toNat_of_nonneg h02
  have p1 := jsParseIntStr_toString_small r1.toNat (by omega)
  have p2 := jsParseIntStr_toString_small r2.toNat (by omega)
  rw [e1] at p1
  rw [e2] at p2
  rw [h] at p1
  rw [p2] at p1
  exact (Option.some.inj p1).symm

theorem dupWarn_inj_small {r1 r2 : Int} (h01 : 0 ≤ r1) (h11 : r1 ≤ 100)
    (h02 : 0 ≤ r2) (h12 : r2 ≤ 100) (h : dupWarn r1 = dupWarn r2) : r1 = r2 := by
  unfold dupWarn at h
  exact toString_int_inj_small h01 h11 h02 h12 (string_append_left_cancel h)

theorem ne_of_head {a b : String} {c d : Char} (ha : a.data.head? = some c)
    (hb : b.data.head? = some d) (hne : c ≠ d) : a ≠ b := by
  intro h
  rw [h] at ha
  rw [hb] at ha
  exact hne (Option.some.inj ha).symm

theorem invalid_rank_ne_dupWarn (i r : Int) :
    ("invalid rank at index " ++ toString i) ≠ dupWarn r := by
  refine ne_of_head (c := 'i') (d := 'd') ?_ ?_ (by decide)
  · rw [String.data_append]; rfl
  · unfold dupWarn; rw [String.data_append]; rfl

theorem missing_sign_key_ne_dupWarn (i r : Int) :
    ("missing sign_key at index " ++ toString i) ≠ dupWarn r := by
  refine ne_of_head (c := 'm') (d := 'd') ?_ ?_ (by decide)
  · rw [String.data_append]; rfl
  · unfold dupWarn; rw [String.data_append]; rfl

theorem invalid_date_ne_dupWarn (r : Int) : "invalid date_kst" ≠ dupWarn r := by
  refine ne_of_head (c := 'i') (d := 'd') rfl ?_ (by decide)
  unfold dupWarn; rw [String.data_append]; rfl

theorem dedupByRank_dup_count {r : Int} (h0 : 0 ≤ r) (h1 : r ≤ 100) :
    ∀ (l : List JsVal) (seen : List Int),
      (∀ e ∈ l, 0 ≤ rankOf e ∧ rankOf e ≤ 100) →
      (dedupByRank l seen).2.countP (fun w => w == dupWarn r) =
        (if r ∈ seen then countRank r l
         else countRank r l - min (countRank r l) 1) := by
  intro l
  induction l with
  | nil =>
      intro seen _
      simp [dedupByRank, countRank]
  | cons e rest ih =>
      intro seen hb
      have hbe := hb e (by simp)
      have hbrest : ∀ x ∈ rest, 0 ≤ rankOf x ∧ rankOf x ≤ 100 :=
        fun x hx => hb x (by simp [hx])
      unfold dedupByRank
      split
      · next hseen =>
        dsimp only
        rw [List.countP_cons, ih seen hbrest]
        unfold countRank
        rw [List.countP_cons]
        by_cases he : rankOf e = r
        · have hw : (("duplicate rank " ++ toString (rankOf e) : String) == dupWarn r)
              = true := by
            rw [he]
            simp [dupWarn]
          have hrank : ((rankOf e == r) = true) := by simpa using he
          have hr : r ∈ seen := he ▸ hseen
          simp only [hw, hrank, if_true, if_pos hr]
        · have hw : (("duplicate rank " ++ toString (rankOf e) : String) == dupWarn r)
              = false := by
            simp only [beq_eq_false_iff_ne, ne_eq]
            intro hcontra
            exact he (dupWarn_inj_small hbe.1 hbe.2 h0 h1 hcontra)
          have hrank : ((rankOf e == r) = false) := by simpa using he
          by_cases hr : r ∈ seen
          · simp only [hw, hrank, Bool.false_eq_true, if_false, if_pos hr]
          · simp only [hw, hrank, Bool.false_eq_true, if_false, if_neg hr]
            omega
      · next hseen =>
        dsimp only
        rw [ih (rankOf e :: seen) hbrest]
        unfold countRank
        rw [List.countP_cons]
        by_cases he : rankOf e = r
        · have hrank : ((rankOf e == r) = true) := by simpa using he
          have hr : r ∉ seen := fun hmem => hseen (he ▸ hmem)
          simp only [hrank, if_true, if_pos (show r ∈ rankOf e :: seen by simp [he]),
            if_neg hr]
          omega
        · have hrank : ((rankOf e == r) = false) := by simpa using he
          have hmemiff : (r ∈ rankOf e :: seen) ↔ (r ∈ seen) := by
            simp only [List.mem_cons]
            constructor
            · rintro (h | h)
              · exact absurd h.symm he
              · exact h
            · exact Or.inr
          by_cases hr : r ∈ seen
          · simp only [hrank, Bool.false_eq_true, if_false,
              if_pos (hmemiff.mpr hr), if_pos hr]
            omega
          · simp only [hrank, Bool.false_eq_true, if_false,
              if_neg (fun h => hr (hmemiff.mp h)), if_neg hr]
            omega

theorem entryWarningsOf_forms (d : JsVal) :
    ∀ w ∈ entryWarningsOf d, ∃ i : Int,
      w = "invalid rank at index " ++ toString i ∨
      w = "missing sign_key at index " ++ toString i := by
  intro w hw
  unfold entryWarningsOf at hw
  rw [List.mem_flatten] at hw
  obtain ⟨ws, hws, hwin⟩ := hw
  rw [List.mem_map] at hws
  obtain ⟨pr, hpr, hpr2⟩ := hws
  rw [List.mem_map] at hpr
  obtain ⟨p, _, hp2⟩ := hpr
  subst hp2
  subst hpr2
  rw [normalizeRanking_warnings] at hwin
  rw [List.mem_append] at hwin
  refine ⟨Int.ofNat p.1, ?_⟩
  rcases hwin with h | h
  · left
    revert h
    split
    · intro h
      simpa using h
    · intro h
      simp at h
  · right
    revert h
    split
    · intro h
      simpa using h
    · intro h
      simp at h

/-- **C5.** Set-level ordering and dedup of `normalizeFortuneJson`: the
final rankings all carry an integer rank in `[1,12]`, are strictly
sorted by rank (hence pairwise-distinct ranks and at most 12 entries),
the entry kept for each rank is the first in original input order among
the in-range normalized entries, and each dropped duplicate of rank `r`
contributes exactly one `"duplicate rank r"` warning. -/
theorem c5_set_level (d : JsVal) (todayKst : String) (r : Int)
    (hr1 : 1 ≤ r) (hr2 : r ≤ 12) :
    (∀ e ∈ (normalizeFortuneJson d todayKst).rankings,
      ∃ n : Int, jsGetF e "rank" = .num n ∧ 1 ≤ n ∧ n ≤ 12 ∧ rankOf e = n) ∧
    (normalizeFortuneJson d todayKst).rankings.Pairwise
      (fun a b => rankOf a < rankOf b) ∧
    (normalizeFortuneJson d todayKst).rankings.length ≤ 12 ∧
    firstWithRank r (normalizeFortuneJson d todayKst).rankings =
      firstWithRank r (filteredEntries d) ∧
    (normalizeFortuneJson d todayKst).warnings.countP (fun w => w == dupWarn r) =
      countRank r (filteredEntries d) - min (countRank r (filteredEntries d)) 1 := by
  have hsub : (dedupByRank (sortByRank (filteredEntries d)) []).1.Sublist
      (sortByRank (filteredEntries d)) := dedupByRank_sublist _ []
  have hmem : ∀ e ∈ (normalizeFortuneJson d todayKst).rankings,
      e ∈ filteredEntries d := by
    intro e he
    rw [normalizeFortuneJson_rankings] at he
    exact (sortByRank_perm (filteredEntries d)).mem_iff.mp (hsub.mem he)
  have hbounds : ∀ e ∈ (normalizeFortuneJson d todayKst).rankings,
      ∃ n : Int, jsGetF e "rank" = .num n ∧ 1 ≤ n ∧ n ≤ 12 ∧ rankOf e = n :=
    fun e he => filteredEntries_bounds d e (hmem e he)
  have hnd : ((normalizeFortuneJson d todayKst).rankings.map rankOf).Nodup := by
    rw [normalizeFortuneJson_rankings]
    exact (dedupByRank_nodup (sortByRank (filteredEntries d)) []).1
  have hpw : (normalizeFortuneJson d todayKst).rankings.Pairwise
      (fun a b => rankOf a < rankOf b) := by
    have hle : (normalizeFortuneJson d todayKst).rankings.Pairwise
        (fun a b => rankOf a ≤ rankOf b) := by
      rw [normalizeFortuneJson_rankings]
      exact (sortByRank_pairwise (filteredEntries d)).sublist hsub
    have hne : (normalizeFortuneJson d todayKst).rankings.Pairwise
        (fun a b => rankOf a ≠ rankOf b) := List.pairwise_map.mp hnd
    exact (hle.and hne).imp (fun h => lt_of_le_of_ne h.1 h.2)
  refine ⟨hbounds, hpw, ?_, ?_, ?_⟩
  · have hlen : (normalizeFortuneJson d todayKst).rankings.length =
        ((normalizeFortuneJson d todayKst).rankings.map rankOf).length := by
      rw [List.length_map]
    rw [hlen, ← List.toFinset_card_of_nodup hnd]
    have hsubset : ((normalizeFortuneJson d todayKst).rankings.map rankOf).toFinset ⊆
        Finset.Icc (1 : Int) 12 := by
      intro x hx
      rw [List.mem_toFinset, List.mem_map] at hx
      obtain ⟨e, he, hx⟩ := hx
      obtain ⟨n, _, h1, h12, hrk⟩ := hbounds e he
      rw [Finset.mem_Icc]
      omega
    calc ((normalizeFortuneJson d todayKst).rankings.map rankOf).toFinset.card
        ≤ (Finset.Icc (1 : Int) 12).card := Finset.card_le_card hsubset
      _ = 12 := by rw [Int.card_Icc]; rfl
  · rw [normalizeFortuneJson_rankings, firstWithRank_dedup _ [],
      if_neg (List.not_mem_nil r), firstWithRank_sort]
  · rw [normalizeFortuneJson_warnings_eq, List.countP_append, List.countP_append]
    have hdatecases : dateWarningsOf d todayKst = [] ∨
        dateWarningsOf d todayKst = ["invalid date_kst"] := by
      unfold dateWarningsOf
      dsimp only
      repeat' split
      all_goals first
        | exact Or.inr rfl
        | exact Or.inl rfl
    have hdate : (dateWarningsOf d todayKst).countP (fun w => w == dupWarn r) = 0 := by
      rcases hdatecases with h | h <;> rw [h]
      · rfl
      · simp only [List.countP_cons, List.countP_nil]
        have := invalid_date_ne_dupWarn r
        simp [this]
    have hentry : (entryWarningsOf d).countP (fun w => w == dupWarn r) = 0 := by
      rw [List.countP_eq_zero]
      intro w hw
      obtain ⟨i, h | h⟩ := entryWarningsOf_forms d w hw <;> subst h <;>
        simp only [beq_iff_eq]
      · exact invalid_rank_ne_dupWarn i r
      · exact missing_sign_key_ne_dupWarn i r
    have hranks : ∀ e ∈ sortByRank (filteredEntries d),
        0 ≤ rankOf e ∧ rankOf e ≤ 100 := by
      intro e he
      obtain ⟨n, _, h1, h12, hrk⟩ := filteredEntries_bounds d e
        ((sortByRank_perm (filteredEntries d)).mem_iff.mp he)
      omega
    rw [hdate, hentry, dedupByRank_dup_count (by omega) (by omega) _ [] hranks,
      if_neg (List.not_mem_nil r)]
    have hcnt : countRank r (sortByRank (filteredEntries d)) =
        countRank r (filteredEntries d) := by
      unfold countRank
      exact (sortByRank_perm (filteredEntries d)).countP_eq _
    rw [hcnt]
    omega

/-- Witness for C5 at the spec's dedup example: two raw entries both
resolving to rank 5 — the first (in input order) is kept, one
`"duplicate rank 5"` warning is recorded. -/
theorem c5_set_level_witness :
    (1 : Int) ≤ 5 ∧ (5 : Int) ≤ 12 ∧
    firstWithRank 5 (normalizeFortuneJson (.obj [("rankings", .arr [.obj [("rank", .num 5), ("sign_key", .str "a")], .obj [("rank", .str "5"), ("sign_key", .str "b")]])]) "2026-10-11").rankings =
      firstWithRank 5 (filteredEntries (.obj [("rankings", .arr [.obj [("rank", .num 5), ("sign_key", .str "a")], .obj [("rank", .str "5"), ("sign_key", .str "b")]])])) ∧
    (normalizeFortuneJson (.obj [("rankings", .arr [.obj [("rank", .num 5), ("sign_key", .str "a")], .obj [("rank", .str "5"), ("sign_key", .str "b")]])]) "2026-10-11").warnings.countP
        (fun w => w == dupWarn 5) =
      countRank 5 (filteredEntries (.obj [("rankings", .arr [.obj [("rank", .num 5), ("sign_key", .str "a")], .obj [("rank", .str "5"), ("sign_key", .str "b")]])])) -
        min (countRank 5 (filteredEntries (.obj [("rankings", .arr [.obj [("rank", .num 5), ("sign_key", .str "a")], .obj [("rank", .str "5"), ("sign_key", .str "b")]])]))) 1 := by
  have h := c5_set_level (.obj [("rankings", .arr [.obj [("rank", .num 5), ("sign_key", .str "a")], .obj [("rank", .str "5"), ("sign_key", .str "b")]])]) "2026-10-11" 5 (by decide) (by decide)
  exact ⟨by decide, by decide, h.2.2.2.1, h.2.2.2.2⟩

theorem jsIsNullish_of_truthy {v : JsVal} (h : jsTruthy v = true) :
    jsIsNullish v = false := by
  cases v <;> simp_all [jsTruthy, jsIsNullish]

theorem jsGetE_ok_of_truthy {v : JsVal} (h : jsTruthy v = true) (k : String) :
    jsGetE v k = .ok (jsGetF v k) := by
  unfold jsGetE
  rw [jsIsNullish_of_truthy h]
  rfl

theorem normalizeOhaasaScoresE_eq (v : JsVal) :
    normalizeOhaasaScoresE v = .ok (normalizeOhaasaScores v) := by
  cases v with
  | null => rfl
  | undef => rfl
  | bool b => simp [normalizeOhaasaScoresE, normalizeOhaasaScores, jsTypeof, jsTruthy]
  | num n => simp [normalizeOhaasaScoresE, normalizeOhaasaScores, jsTypeof, jsTruthy]
  | str s => simp [normalizeOhaasaScoresE, normalizeOhaasaScores, jsTypeof, jsTruthy]
  | arr l => rfl
  | obj fields =>
      have hguard : ¬((!jsTruthy (JsVal.obj fields) ||
          jsTypeof (JsVal.obj fields) != "object") = true) := by
        simp [jsTruthy, jsTypeof]
      have hE : ∀ k, jsGetE (.obj fields) k = Except.ok (jsGetF (.obj fields) k) :=
        fun k => rfl
      have hbind : ∀ (a : JsVal) (f : JsVal → Except String JsVal),
          (Except.ok a : Except String JsVal) >>= f = f a := fun a f => rfl
      have hpure : ∀ (a : JsVal) (f : JsVal → Except String JsVal),
          (pure a : Except String JsVal) >>= f = f a := fun a f => rfl
      unfold normalizeOhaasaScoresE normalizeOhaasaScores
      rw [if_neg hguard, if_neg hguard]
      simp only [hE, hbind, hpure]
      by_cases hn : jsIsNullish (jsGetF (JsVal.obj fields) "total") = true
      · simp only [jsNullish, if_pos hn, hE, hbind, hpure]
        rfl
      · simp only [jsNullish, if_neg hn, hE, hbind, hpure]
        rfl

theorem truthy_of_guard {v : JsVal}
    (h : ¬((!jsTruthy v || jsTypeof v != "object") = true)) : jsTruthy v = true := by
  revert h
  cases jsTruthy v <;> simp

theorem aiValE_eq (aiRaw : JsVal) : aiValE aiRaw = .ok (aiValOf aiRaw) := by
  have hbind : ∀ {α β : Type} (a : α) (f : α → Except String β),
      (Except.ok a : Except String α) >>= f = f a := fun a f => rfl
  unfold aiValE aiValOf
  split
  · rfl
  · next hg =>
      rw [jsGetE_ok_of_truthy (truthy_of_guard hg) "cards"]
      simp only [hbind]
      rw [jsGetE_ok_of_truthy (truthy_of_guard hg) "summary"]
      simp only [hbind]
      rfl

theorem normalizeRankingE_eq (v : JsVal) (i : Int) :
    normalizeRankingE v i = .ok (normalizeRanking v i) := by
  have hbind : ∀ {α β : Type} (a : α) (f : α → Except String β),
      (Except.ok a : Except String α) >>= f = f a := fun a f => rfl
  unfold normalizeRankingE normalizeRanking
  dsimp only
  rw [normalizeOhaasaScoresE_eq]
  simp only [hbind]
  rw [aiValE_eq]
  simp only [hbind]
  rfl

theorem mapM_ok_of_eq {α β : Type} (g : α → Except String β) (f : α → β)
    (h : ∀ a, g a = .ok (f a)) (l : List α) :
    l.mapM g = .ok (l.map f) := by
  have hbind : ∀ {γ δ : Type} (x : γ) (k : γ → Except String δ),
      (Except.ok x : Except String γ) >>= k = k x := fun _ _ => rfl
  induction l with
  | nil => rfl
  | cons a t ih =>
      rw [List.mapM_cons, h a]
      simp only [hbind]
      rw [ih]
      simp only [hbind]
      rfl

theorem normalizeFortuneJsonE_eq (d : JsVal) (todayKst : String) :
    normalizeFortuneJsonE d todayKst = .ok (normalizeFortuneJson d todayKst) := by
  have hbind : ∀ {γ δ : Type} (x : γ) (k : γ → Except String δ),
      (Except.ok x : Except String γ) >>= k = k x := fun _ _ => rfl
  unfold normalizeFortuneJsonE normalizeFortuneJson
  dsimp only
  have hmap := mapM_ok_of_eq (fun p : Nat × JsVal => normalizeRankingE p.2 (Int.ofNat p.1))
    (fun p : Nat × JsVal => normalizeRanking p.2 (Int.ofNat p.1))
    (fun p => normalizeRankingE_eq p.2 (Int.ofNat p.1))
  rw [hmap]
  simp only [hbind]
  rfl

/-- C9: the normalizers are total — with every input-derived property
access instrumented to raise a TypeError on a nullish base,
`normalizeFortuneJson`, `normalizeRanking` and `normalizeOhaasaScores`
still return `.ok` of their pure result on every input value, so no
malformed payload (wrong-typed, missing or extra fields, entries of any
type) can make them throw. -/
theorem c9_normalizer_total :
    (∀ (d : JsVal) (todayKst : String),
      normalizeFortuneJsonE d todayKst = .ok (normalizeFortuneJson d todayKst)) ∧
    (∀ (v : JsVal) (i : Int), normalizeRankingE v i = .ok (normalizeRanking v i)) ∧
    (∀ s : JsVal, normalizeOhaasaScoresE s = .ok (normalizeOhaasaScores s)) :=
  ⟨normalizeFortuneJsonE_eq, normalizeRankingE_eq, normalizeOhaasaScoresE_eq⟩
